import Mathlib

/-!
Verification development for the tgbotq document-assembly pipeline.

Text is modelled as `List Char`.  Python functions from `image_ai.py`,
`image_convert.py` and `main.py` are embedded as executable Lean
definitions; remote HTTP interactions are modelled by explicit outcome
oracles passed to the embedded functions.
-/

set_option maxRecDepth 8192

namespace Tgbotq

/-- ASCII whitespace, as matched by Python's `\s` / `str.strip`. -/
def isSpaceC (c : Char) : Bool :=
  c = ' ' || c = '\t' || c = '\n' || c = '\r' || c = '\x0b' || c = '\x0c'

/-- ASCII digit, as matched by `\d` on the inputs in scope. -/
def isDigitC (c : Char) : Bool :=
  '0' ≤ c && c ≤ '9'

/-- Maximal-munch run extraction: the longest prefix satisfying `p`, plus the rest. -/
def takeRun (p : Char → Bool) : List Char → List Char × List Char
  | [] => ([], [])
  | c :: cs =>
    if p c then
      let r := takeRun p cs
      (c :: r.1, r.2)
    else ([], c :: cs)

/-- Expect a literal prefix; return the remainder on success. -/
def dropLit : List Char → List Char → Option (List Char)
  | [], s => some s
  | _ :: _, [] => none
  | c :: cs, d :: ds => if c = d then dropLit cs ds else none

/-- Case-insensitive literal prefix (the literal is given lowercase). -/
def dropLitCI : List Char → List Char → Option (List Char)
  | [], s => some s
  | _ :: _, [] => none
  | c :: cs, d :: ds => if c = d.toLower then dropLitCI cs ds else none

/-- Python `str.strip()` restricted to ASCII whitespace. -/
def pyStrip (s : List Char) : List Char :=
  ((s.dropWhile isSpaceC).reverse.dropWhile isSpaceC).reverse

/-- Python `str.rstrip()` restricted to ASCII whitespace. -/
def pyRstrip (s : List Char) : List Char :=
  (s.reverse.dropWhile isSpaceC).reverse

/-- Does `s` contain two adjacent copies of `x`? -/
def hasPair (x : Char) : List Char → Bool
  | [] => false
  | [_] => false
  | a :: b :: r => (a = x && b = x) || hasPair x (b :: r)

/-- `"\n".join` on a list of lines. -/
def joinNL : List (List Char) → List Char
  | [] => []
  | [l] => l
  | l :: ls => l ++ '\n' :: joinNL ls

/-- Helper for `splitLines`: accumulates the current (reversed) line. -/
def splitLinesGo (cur : List Char) : List Char → List (List Char)
  | [] => if cur = [] then [] else [cur.reverse]
  | c :: r => if c = '\n' then cur.reverse :: splitLinesGo [] r else splitLinesGo (c :: cur) r

/-- Python `str.splitlines()` restricted to `'\n'` separators:
splits on newlines and drops a final empty segment. -/
def splitLines (s : List Char) : List (List Char) :=
  splitLinesGo [] s

/-! ## image_ai.py / image_convert.py: URL check and the DeAPI protocol -/

/-- The fixed placeholder image URL (`PLACEHOLDER_URL` in the source). -/
def PLACEHOLDER_URL : List Char :=
  "https://via.placeholder.com/800x600.png?text=AI+Image".toList

/-- `_is_http_url` from the source: `None`/empty are rejected; otherwise the
value is stripped, lowercased, and must start with `http://` or `https://`.
`none` models Python `None`. -/
def is_http_url : Option (List Char) → Bool
  | none => false
  | some v =>
    if v = [] then false
    else
      let w := (pyStrip v).map Char.toLower
      (dropLit "http://".toList w).isSome || (dropLit "https://".toList w).isSome

/-- One parsed poll-status response body: `data.status` and the three
possible result fields, each `none` when absent (Python `None`). -/
structure PollResponse where
  status : Option (List Char)
  result_url : Option (List Char)
  result : Option (List Char)
  preview : Option (List Char)
deriving DecidableEq, Repr

/-- The outcome of one `GET /request-status` poll: `err` models any raised
exception (transport error, non-2xx via `raise_for_status`, unparseable
body); `ok` carries the parsed response. -/
inductive PollOutcome where
  | err
  | ok (r : PollResponse)
deriving DecidableEq, Repr

/-- Python truthiness of an optional string: `None` and `""` are falsy. -/
def truthyOpt : Option (List Char) → Bool
  | none => false
  | some v => v ≠ []

/-- Python `a or b` on optional strings: `a` if truthy, otherwise `b`. -/
def pyOr (a b : Option (List Char)) : Option (List Char) :=
  if truthyOpt a then a else b

/-- `d.get("result_url") or d.get("result") or d.get("preview")`. -/
def chainResult (r : PollResponse) : Option (List Char) :=
  pyOr (pyOr r.result_url r.result) r.preview

/-- `status in ("pending", "processing", "queued", "running")`;
Python `None in (...)` is false. -/
def isWorkingStatus : Option (List Char) → Bool
  | none => false
  | some s =>
    s = "pending".toList || s = "processing".toList ||
    s = "queued".toList || s = "running".toList

/-- What one iteration of the poll loop does: return a value, or continue. -/
inductive PollIter where
  | ret (r : Option (List Char))
  | next
deriving DecidableEq, Repr

/-- One iteration of the `for attempt in range(max_attempts)` body of
`_deapi_poll_result`: an exception returns `None`; an HTTP(S) result field is
returned; a still-working status continues the loop; any other status
returns `None`. -/
def pollIter : PollOutcome → PollIter
  | .err => .ret none
  | .ok r =>
    let ru := chainResult r
    if is_http_url ru then .ret ru
    else if isWorkingStatus r.status then .next
    else .ret none

/-- The poll loop of `_deapi_poll_result`, instrumented with the number of
poll iterations actually executed.  `polls n` is the outcome of the poll at
attempt index `n`; falling off the loop returns `None`. -/
def pollLoopCount (polls : Nat → PollOutcome) : Nat → Nat → Option (List Char) × Nat
  | _, 0 => (none, 0)
  | attempt, remaining + 1 =>
    match pollIter (polls attempt) with
    | .ret r => (r, 1)
    | .next =>
      let q := pollLoopCount polls (attempt + 1) remaining
      (q.1, q.2 + 1)

/-- `_deapi_poll_result`, with the executed-poll count: an empty token
short-circuits to `None` with no polls. -/
def deapi_poll_result_count (token : List Char) (polls : Nat → PollOutcome)
    (max_attempts : Nat) : Option (List Char) × Nat :=
  if token = [] then (none, 0) else pollLoopCount polls 0 max_attempts

/-- `_deapi_poll_result` from the source (result only). -/
def deapi_poll_result (token : List Char) (polls : Nat → PollOutcome)
    (max_attempts : Nat) : Option (List Char) :=
  (deapi_poll_result_count token polls max_attempts).1

/-- Outcome of one `POST /txt2img` submission: `err` models any raised
exception; `ok` carries `data.request_id` (`none` when absent). -/
inductive SubmitOutcome where
  | err
  | ok (request_id : Option (List Char))
deriving DecidableEq, Repr

/-- `_deapi_txt2img_request`: empty token or exception or falsy
`request_id` yield `None`; otherwise the request id. -/
def deapi_txt2img_request (token : List Char) (o : SubmitOutcome) :
    Option (List Char) :=
  if token = [] then none
  else
    match o with
    | .err => none
    | .ok none => none
    | .ok (some rid) => if rid = [] then none else some rid

/-- The remote-service behaviour seen by one job attempt: the submission
outcome and the poll oracle for the submitted job. -/
structure JobEnv where
  submit : SubmitOutcome
  polls : Nat → PollOutcome

/-- `MAX_JOBS = 5` from `generate_image_url_from_prompt`. -/
def MAX_JOBS : Nat := 5

/-- `max_attempts = 12` default of `_deapi_poll_result`. -/
def MAX_ATTEMPTS : Nat := 12

/-- The `for job_attempt in range(1, MAX_JOBS + 1)` loop of
`generate_image_url_from_prompt`, instrumented with the total number of
poll iterations executed.  A failed submission moves to the next job; a
poll result that is an HTTP(S) URL is returned; otherwise the next job is
tried; exhausting all jobs returns the placeholder. -/
def genLoopCount (token : List Char) (env : Nat → JobEnv) :
    Nat → Nat → List Char × Nat
  | _, 0 => (PLACEHOLDER_URL, 0)
  | ja, remaining + 1 =>
    match deapi_txt2img_request token (env ja).submit with
    | none => genLoopCount token env (ja + 1) remaining
    | some _ =>
      let pl := deapi_poll_result_count token (env ja).polls MAX_ATTEMPTS
      match pl.1 with
      | some u =>
        if is_http_url (some u) then (u, pl.2)
        else
          let q := genLoopCount token env (ja + 1) remaining
          (q.1, pl.2 + q.2)
      | none =>
        let q := genLoopCount token env (ja + 1) remaining
        (q.1, pl.2 + q.2)

/-- `generate_image_url_from_prompt`, instrumented with the total executed
poll count.  The prompt only feeds the request payload; the remote
behaviour it elicits is the oracle `env`. -/
def generate_image_url_from_prompt_count (_prompt : List Char)
    (token : List Char) (env : Nat → JobEnv) : List Char × Nat :=
  if token = [] then (PLACEHOLDER_URL, 0) else genLoopCount token env 1 MAX_JOBS

/-- `generate_image_url_from_prompt` from the source (result only). -/
def generate_image_url_from_prompt (prompt : List Char) (token : List Char)
    (env : Nat → JobEnv) : List Char :=
  (generate_image_url_from_prompt_count prompt token env).1

/-! ### Lemmas about the DeAPI loops -/

lemma genLoopCount_succ (token : List Char) (env : Nat → JobEnv) (ja m : Nat) :
    genLoopCount token env ja (m + 1) =
      match deapi_txt2img_request token (env ja).submit with
      | none => genLoopCount token env (ja + 1) m
      | some _ =>
        match (deapi_poll_result_count token (env ja).polls MAX_ATTEMPTS).1 with
        | some u =>
          if is_http_url (some u) then
            (u, (deapi_poll_result_count token (env ja).polls MAX_ATTEMPTS).2)
          else
            ((genLoopCount token env (ja + 1) m).1,
              (deapi_poll_result_count token (env ja).polls MAX_ATTEMPTS).2 +
                (genLoopCount token env (ja + 1) m).2)
        | none =>
          ((genLoopCount token env (ja + 1) m).1,
            (deapi_poll_result_count token (env ja).polls MAX_ATTEMPTS).2 +
              (genLoopCount token env (ja + 1) m).2) := rfl

lemma placeholder_is_http_url : is_http_url (some PLACEHOLDER_URL) = true := by decide

/-- Every value the job loop can return is accepted by `is_http_url`, and is
either the placeholder or a value produced by the poll loop of some job. -/
lemma genLoopCount_valid (token : List Char) (env : Nat → JobEnv) :
    ∀ n ja, is_http_url (some (genLoopCount token env ja n).1) = true ∧
      ((genLoopCount token env ja n).1 = PLACEHOLDER_URL ∨
        ∃ j, deapi_poll_result token (env j).polls MAX_ATTEMPTS =
          some (genLoopCount token env ja n).1) := by
  intro n
  induction n with
  | zero => exact fun ja => ⟨placeholder_is_http_url, Or.inl rfl⟩
  | succ m ih =>
    intro ja
    rw [genLoopCount_succ]
    cases hs : deapi_txt2img_request token (env ja).submit with
    | none => exact ih (ja + 1)
    | some rid =>
      dsimp only
      cases hp : (deapi_poll_result_count token (env ja).polls MAX_ATTEMPTS).1 with
      | none => exact ⟨(ih (ja + 1)).1, (ih (ja + 1)).2⟩
      | some u =>
        dsimp only
        by_cases hurl : is_http_url (some u) = true
        · rw [if_pos hurl]
          exact ⟨hurl, Or.inr ⟨ja, by simp [deapi_poll_result, hp]⟩⟩
        · rw [if_neg hurl]
          exact ⟨(ih (ja + 1)).1, (ih (ja + 1)).2⟩

/-- C1.  `generate_image_url_from_prompt` never fails: for every prompt,
token (including the empty credential) and remote behaviour, the returned
string is accepted by `_is_http_url`, and it is either a URL produced by a
poll of the generation service or the fixed placeholder URL. -/
theorem generate_image_always_valid_url (prompt token : List Char)
    (env : Nat → JobEnv) :
    is_http_url (some (generate_image_url_from_prompt prompt token env)) = true ∧
    (generate_image_url_from_prompt prompt token env = PLACEHOLDER_URL ∨
      ∃ j, deapi_poll_result token (env j).polls MAX_ATTEMPTS =
        some (generate_image_url_from_prompt prompt token env)) := by
  unfold generate_image_url_from_prompt generate_image_url_from_prompt_count
  by_cases htok : token = []
  · simp only [htok, if_pos rfl]
    exact ⟨placeholder_is_http_url, Or.inl rfl⟩
  · simp only [if_neg htok]
    exact genLoopCount_valid token env MAX_JOBS 1

lemma pollIter_working {r : PollResponse} (hw : isWorkingStatus r.status = true)
    (hu : is_http_url (chainResult r) = false) : pollIter (.ok r) = .next := by
  simp [pollIter, hu, hw]

lemma pollLoopCount_all_next (p : Nat → PollOutcome)
    (h : ∀ n, pollIter (p n) = .next) :
    ∀ m a, pollLoopCount p a m = (none, m) := by
  intro m
  induction m with
  | zero => intro a; rfl
  | succ k ih =>
    intro a
    simp only [pollLoopCount, h a, ih (a + 1)]

lemma genLoopCount_stuck (token : List Char) (env : Nat → JobEnv)
    (htok : token ≠ [])
    (h : ∀ ja n, pollIter ((env ja).polls n) = PollIter.next) :
    ∀ m ja, (genLoopCount token env ja m).1 = PLACEHOLDER_URL ∧
      (genLoopCount token env ja m).2 ≤ m * MAX_ATTEMPTS := by
  intro m
  induction m with
  | zero => exact fun ja => ⟨rfl, Nat.zero_le _⟩
  | succ k ih =>
    intro ja
    have hpoll : deapi_poll_result_count token (env ja).polls MAX_ATTEMPTS =
        (none, MAX_ATTEMPTS) := by
      unfold deapi_poll_result_count
      rw [if_neg htok]
      exact pollLoopCount_all_next _ (h ja) MAX_ATTEMPTS 0
    rw [genLoopCount_succ]
    cases hs : deapi_txt2img_request token (env ja).submit with
    | none =>
      refine ⟨(ih (ja + 1)).1, ?_⟩
      calc (genLoopCount token env (ja + 1) k).2 ≤ k * MAX_ATTEMPTS := (ih (ja + 1)).2
        _ ≤ (k + 1) * MAX_ATTEMPTS := Nat.mul_le_mul_right _ (Nat.le_succ k)
    | some rid =>
      simp only [hpoll]
      refine ⟨(ih (ja + 1)).1, ?_⟩
      have := (ih (ja + 1)).2
      simp only [Nat.succ_mul]
      omega

/-- C2.  If every poll reports a still-working status and never an HTTP(S)
URL, `generate_image_url_from_prompt` returns the placeholder URL after at
most `MAX_JOBS * MAX_ATTEMPTS = 60` poll iterations in total (each of the at
most `MAX_JOBS` submitted jobs being polled at most `MAX_ATTEMPTS` times). -/
theorem generate_bounded_polls (prompt token : List Char) (env : Nat → JobEnv)
    (h : ∀ ja n, ∃ r, (env ja).polls n = PollOutcome.ok r ∧
      isWorkingStatus r.status = true ∧ is_http_url (chainResult r) = false) :
    (generate_image_url_from_prompt_count prompt token env).1 = PLACEHOLDER_URL ∧
    (generate_image_url_from_prompt_count prompt token env).2 ≤
      MAX_JOBS * MAX_ATTEMPTS := by
  unfold generate_image_url_from_prompt_count
  by_cases htok : token = []
  · simp only [htok, if_pos rfl]
    exact ⟨rfl, Nat.zero_le _⟩
  · simp only [if_neg htok]
    have hnext : ∀ ja n, pollIter ((env ja).polls n) = PollIter.next := by
      intro ja n
      obtain ⟨r, hr, hw, hu⟩ := h ja n
      rw [hr]
      exact pollIter_working hw hu
    exact genLoopCount_stuck token env htok hnext MAX_JOBS 1

/-- A remote service that always reports `processing` with no result field. -/
def envProcessing : Nat → JobEnv := fun _ =>
  { submit := SubmitOutcome.ok (some "id42".toList)
    polls := fun _ => PollOutcome.ok ⟨some "processing".toList, none, none, none⟩ }

/-- Witness for C2 at a concrete always-`processing` service. -/
theorem generate_bounded_polls_witness :
    (generate_image_url_from_prompt_count "p".toList "t".toList envProcessing).1 =
      PLACEHOLDER_URL ∧
    (generate_image_url_from_prompt_count "p".toList "t".toList envProcessing).2 ≤
      MAX_JOBS * MAX_ATTEMPTS :=
  generate_bounded_polls "p".toList "t".toList envProcessing
    (fun _ _ => ⟨⟨some "processing".toList, none, none, none⟩, rfl, by decide, by decide⟩)

/-- A poll response whose result field is present but is an inline base64
payload rather than an HTTP(S) URL, arriving with a terminal status. -/
def malformedDoneResp : PollResponse :=
  ⟨some "done".toList, none, some "data:image/png;base64,AAAA".toList, none⟩

/-- Counterexample to C3 as stated: this response's result field is present
and is not an HTTP(S) URL, yet the poll loop does not continue to the next
attempt — it stops after a single poll and returns `None`. -/
theorem poll_malformed_not_continue :
    truthyOpt (chainResult malformedDoneResp) = true ∧
    is_http_url (chainResult malformedDoneResp) = false ∧
    deapi_poll_result_count "t".toList (fun _ => PollOutcome.ok malformedDoneResp)
      MAX_ATTEMPTS = (none, 1) := by
  refine ⟨by decide, by decide, ?_⟩
  unfold deapi_poll_result_count
  rw [if_neg (by decide)]
  show pollLoopCount _ 0 MAX_ATTEMPTS = (none, 1)
  unfold MAX_ATTEMPTS pollLoopCount
  rw [show pollIter (PollOutcome.ok malformedDoneResp) = .ret none from by decide]

/-- C3 (amended).  A present but non-HTTP(S) result field is never returned
as a success; the poll loop continues to the next attempt exactly when the
reported status is still-working (`pending`/`processing`/`queued`/`running`),
and otherwise the poll returns `None`, abandoning this job. -/
theorem poll_malformed_never_success (r : PollResponse)
    (hp : truthyOpt (chainResult r) = true)
    (hu : is_http_url (chainResult r) = false) :
    (∀ u, pollIter (.ok r) ≠ .ret (some u)) ∧
    (isWorkingStatus r.status = true → pollIter (.ok r) = .next) ∧
    (isWorkingStatus r.status = false → pollIter (.ok r) = .ret none) := by
  refine ⟨?_, ?_, ?_⟩
  · intro u
    simp only [pollIter, hu]
    cases hw : isWorkingStatus r.status <;> simp
  · intro hw; simp [pollIter, hu, hw]
  · intro hw; simp [pollIter, hu, hw]

/-- Witness for the amended C3 at a concrete base64-with-`processing` poll. -/
theorem poll_malformed_never_success_witness :
    (∀ u, pollIter (.ok ⟨some "processing".toList, none,
        some "data:image/png;base64,AAAA".toList, none⟩) ≠ .ret (some u)) ∧
    (isWorkingStatus (some "processing".toList) = true →
      pollIter (.ok ⟨some "processing".toList, none,
        some "data:image/png;base64,AAAA".toList, none⟩) = .next) ∧
    (isWorkingStatus (some "processing".toList) = false →
      pollIter (.ok ⟨some "processing".toList, none,
        some "data:image/png;base64,AAAA".toList, none⟩) = .ret none) :=
  poll_malformed_never_success _ (by decide) (by decide)

lemma pollLoopCount_err_at (p : Nat → PollOutcome) :
    ∀ m a k, k < m → pollIter (p (a + k)) = .ret none →
      (∀ j, j < k → pollIter (p (a + j)) = .next) →
      pollLoopCount p a m = (none, k + 1) := by
  intro m
  induction m with
  | zero => intro a k hk; omega
  | succ m' ih =>
    intro a k hk hret hprev
    cases k with
    | zero =>
      simp only [pollLoopCount]
      rw [show p a = p (a + 0) from rfl, hret]
    | succ k' =>
      have h0 : pollIter (p a) = .next := by
        have := hprev 0 (Nat.succ_pos k')
        simpa using this
      simp only [pollLoopCount, h0]
      rw [ih (a + 1) k' (by omega)
        (by rw [show a + 1 + k' = a + (k' + 1) from by omega]; exact hret)
        (fun j hj => by
          rw [show a + 1 + j = a + (j + 1) from by omega]
          exact hprev (j + 1) (by omega))]

/-- C10.  If, within one job, the poll at attempt `k` raises (modelled by
`PollOutcome.err`, whose iteration returns `None`) after `k` still-working
polls, then `_deapi_poll_result` returns `None` immediately — exactly `k + 1`
polls are executed and the remaining attempts are never used — and
`generate_image_url_from_prompt`'s job loop then moves on to submit a fresh
job: its result equals the result of the loop started at the next job
attempt. -/
theorem poll_error_aborts_job (token : List Char) (env : Nat → JobEnv)
    (ja n k : Nat) (htok : token ≠ []) (hk : k < MAX_ATTEMPTS)
    (herr : (env ja).polls k = PollOutcome.err)
    (hprev : ∀ j, j < k → pollIter ((env ja).polls j) = PollIter.next)
    (hsub : deapi_txt2img_request token (env ja).submit ≠ none) :
    deapi_poll_result_count token (env ja).polls MAX_ATTEMPTS = (none, k + 1) ∧
    (genLoopCount token env ja (n + 1)).1 =
      (genLoopCount token env (ja + 1) n).1 := by
  have hpoll : deapi_poll_result_count token (env ja).polls MAX_ATTEMPTS =
      (none, k + 1) := by
    unfold deapi_poll_result_count
    rw [if_neg htok]
    exact pollLoopCount_err_at _ MAX_ATTEMPTS 0 k hk
      (by rw [Nat.zero_add, herr]; rfl)
      (fun j hj => by rw [Nat.zero_add]; exact hprev j hj)
  refine ⟨hpoll, ?_⟩
  rw [genLoopCount_succ]
  obtain ⟨rid, hrid⟩ := Option.ne_none_iff_exists'.mp hsub
  rw [hrid]
  simp only [hpoll]

/-! ## image_convert.py: the Groq translation step -/

/-- Outcome of the translation request: `err` models any raised exception
(transport error, non-2xx via `raise_for_status`, unparseable body, missing
`choices` entry); `ok c` carries the extracted
`choices[0].message.content` value (`none` when the field is absent, in
which case the code falls back to `""`). -/
inductive TransOutcome where
  | err
  | ok (content : Option (List Char))
deriving DecidableEq, Repr

/-- `_translate_uz_to_en` from the source: blank input, missing credential,
any exception, or a blank extracted translation return the original text;
otherwise the stripped translation. -/
def translate_uz_to_en (key : List Char) (o : TransOutcome) (text : List Char) :
    List Char :=
  if text = [] then text
  else if pyStrip text = [] then text
  else if key = [] then text
  else
    match o with
    | .err => text
    | .ok c =>
      let en := pyStrip (c.getD [])
      if en = [] then text else en

/-- C8.  The translation step always returns a string and never raises
(totality of the embedding); on a missing credential, on any raised
transport/parse error, and on a blank extracted translation it returns the
original text unchanged, and otherwise it returns the stripped translated
text. -/
theorem translate_best_effort (key text : List Char) (o : TransOutcome)
    (c : Option (List Char)) :
    translate_uz_to_en [] o text = text ∧
    translate_uz_to_en key TransOutcome.err text = text ∧
    translate_uz_to_en key (TransOutcome.ok c) text =
      (if text = [] ∨ pyStrip text = [] ∨ key = [] ∨ pyStrip (c.getD []) = []
        then text else pyStrip (c.getD [])) := by
  refine ⟨?_, ?_, ?_⟩
  · unfold translate_uz_to_en
    split_ifs <;> simp_all
  · unfold translate_uz_to_en
    split_ifs <;> rfl
  · by_cases h1 : text = [] <;> by_cases h2 : pyStrip text = [] <;>
      by_cases h3 : key = [] <;> by_cases h4 : pyStrip (c.getD []) = [] <;>
      simp [translate_uz_to_en, h1, h2, h3, h4]

/-! ## Marker substitution: `IMAGE_MARKER_RE` and `inject_ai_images_into_content`

The pattern is `\[RASM\s+(\d+):\s*([^\]]+)\]`.  Matching at a position is
deterministic maximal munch: the literal `[RASM`, a nonempty whitespace run,
a nonempty digit run, a `:`, a nonempty run of non-`]` characters, and `]`.
The only backtracking in the pattern is between `\s*` and `([^\]]+)`, which
resolves to group 2 dropping the whitespace prefix except that the group
keeps at least the last character of the run (`group2`). -/

/-- An image marker: group 1 (the caption index) and group 2 (the raw
description capture). -/
structure Marker where
  index : List Char
  desc : List Char
deriving DecidableEq, Repr

/-- The literal head of the marker pattern. -/
def markerHead : List Char := "[RASM".toList

/-- Group 2 of the pattern applied to the run `t` of non-`]` characters
following the colon: `\s*` greedily eats the whitespace prefix, backing off
one character if the whole run is whitespace so that `([^\]]+)` stays
nonempty. -/
def group2 (t : List Char) : List Char :=
  t.drop (min (takeRun isSpaceC t).1.length (t.length - 1))

/-- A nonempty maximal run: `\s+`, `\d+`, `[^\]]+`. -/
def reqRun (p : Char → Bool) (s : List Char) : Option (List Char × List Char) :=
  let r := takeRun p s
  if r.1 = [] then none else some r

/-- Try to match the marker pattern at the start of `s`; on success return
the marker, the matched text, and the remainder. -/
def matchAt (s : List Char) : Option (Marker × List Char × List Char) :=
  match dropLit markerHead s with
  | none => none
  | some s1 =>
    match reqRun isSpaceC s1 with
    | none => none
    | some (w1, s2) =>
      match reqRun isDigitC s2 with
      | none => none
      | some (ds, s3) =>
        match s3 with
        | [] => none
        | c3 :: s4 =>
          if c3 = ':' then
            match reqRun (fun c => !(c = ']')) s4 with
            | none => none
            | some (t, s5) =>
              match s5 with
              | [] => none
              | c5 :: s6 =>
                if c5 = ']' then
                  some ({ index := ds, desc := group2 t },
                    markerHead ++ (w1 ++ (ds ++ (':' :: (t ++ [']'])))), s6)
                else none
          else none

/-- The leftmost match of the pattern in `s`: the text before it, the
marker, the matched text and the remainder — `re.sub`'s scan order. -/
def findMarker : List Char → Option (List Char × Marker × List Char × List Char)
  | [] => none
  | c :: cs =>
    match matchAt (c :: cs) with
    | some (m, txt, rest) => some ([], m, txt, rest)
    | none =>
      match findMarker cs with
      | some (pre, m, txt, rest) => some (c :: pre, m, txt, rest)
      | none => none

/-- `re.sub` over all non-overlapping matches, with fuel (the input length
suffices since every match is nonempty). -/
def injectAux (render : Marker → List Char) : Nat → List Char → List Char
  | 0, s => s
  | f + 1, s =>
    match findMarker s with
    | none => s
    | some (pre, m, _txt, rest) => pre ++ (render m ++ injectAux render f rest)

/-- `IMAGE_MARKER_RE.sub(render, s)`. -/
def subMarkers (render : Marker → List Char) (s : List Char) : List Char :=
  injectAux render (s.length + 1) s

/-- The scan decomposition of `s`: the list of (gap, marker, matched text)
triples, and the trailing gap. -/
def splitMarkersAux : Nat → List Char →
    List (List Char × Marker × List Char) × List Char
  | 0, s => ([], s)
  | f + 1, s =>
    match findMarker s with
    | none => ([], s)
    | some (pre, m, txt, rest) =>
      let q := splitMarkersAux f rest
      ((pre, m, txt) :: q.1, q.2)

/-- The scan decomposition of `s` with enough fuel. -/
def splitMarkers (s : List Char) :
    List (List Char × Marker × List Char) × List Char :=
  splitMarkersAux (s.length + 1) s

/-- Reassemble the input from its decomposition. -/
def recombineIn (ps : List (List Char × Marker × List Char))
    (tail : List Char) : List Char :=
  match ps with
  | [] => tail
  | (pre, _, txt) :: r => pre ++ (txt ++ recombineIn r tail)

/-- Reassemble the output: each matched text replaced by its rendering. -/
def recombineOut (render : Marker → List Char)
    (ps : List (List Char × Marker × List Char)) (tail : List Char) : List Char :=
  match ps with
  | [] => tail
  | (pre, m, _) :: r => pre ++ (render m ++ recombineOut render r tail)

/-! ### Scanner lemmas -/

lemma takeRun_shape (p : Char → Bool) : ∀ s : List Char,
    (takeRun p s).1 ++ (takeRun p s).2 = s := by
  intro s
  induction s with
  | nil => rfl
  | cons c cs ih =>
    by_cases h : p c
    · simp [takeRun, h, ih]
    · simp [takeRun, h]

lemma takeRun_append_ne (p : Char → Bool) : ∀ u v : List Char,
    (takeRun p u).2 ≠ [] →
    takeRun p (u ++ v) = ((takeRun p u).1, (takeRun p u).2 ++ v) := by
  intro u
  induction u with
  | nil => intro v h; exact absurd rfl h
  | cons c cs ih =>
    intro v h
    by_cases hc : p c
    · have h2 : (takeRun p cs).2 ≠ [] := by
        intro hn
        apply h
        simp [takeRun, hc, hn]
      simp [takeRun, hc, ih v h2]
    · simp [takeRun, hc]

lemma reqRun_shape {p : Char → Bool} {s a b : List Char}
    (h : reqRun p s = some (a, b)) : s = a ++ b ∧ a ≠ [] := by
  unfold reqRun at h
  by_cases h1 : (takeRun p s).1 = []
  · rw [if_pos h1] at h; cases h
  · rw [if_neg h1] at h
    have hpair : takeRun p s = (a, b) := Option.some.inj h
    constructor
    · rw [← takeRun_shape p s, hpair]
    · rw [hpair] at h1; exact h1

lemma reqRun_append {p : Char → Bool} {u a b : List Char} (v : List Char)
    (h : reqRun p u = some (a, b)) (hb : b ≠ []) :
    reqRun p (u ++ v) = some (a, b ++ v) := by
  unfold reqRun at h ⊢
  by_cases h1 : (takeRun p u).1 = []
  · rw [if_pos h1] at h; cases h
  · rw [if_neg h1] at h
    have hpair : takeRun p u = (a, b) := Option.some.inj h
    have hb' : (takeRun p u).2 ≠ [] := by rw [hpair]; exact hb
    rw [takeRun_append_ne p u v hb', hpair]
    have ha : a ≠ [] := by rw [hpair] at h1; exact h1
    rw [if_neg ha]

lemma dropLit_shape : ∀ lit s r : List Char,
    dropLit lit s = some r → s = lit ++ r := by
  intro lit
  induction lit with
  | nil => intro s r h; cases h; rfl
  | cons c cs ih =>
    intro s r h
    cases s with
    | nil => cases h
    | cons d ds =>
      unfold dropLit at h
      by_cases hcd : c = d
      · rw [if_pos hcd] at h
        rw [← hcd]
        simpa using ih ds r h
      · rw [if_neg hcd] at h; cases h

lemma dropLit_self : ∀ lit x : List Char, dropLit lit (lit ++ x) = some x := by
  intro lit
  induction lit with
  | nil => intro x; rfl
  | cons c cs ih => intro x; simp [dropLit, ih]

lemma matchAt_elim {s : List Char} {m : Marker} {txt rest : List Char}
    (h : matchAt s = some (m, txt, rest)) :
    ∃ s1 w1 s2 ds s4 t s6,
      dropLit markerHead s = some s1 ∧
      reqRun isSpaceC s1 = some (w1, s2) ∧
      reqRun isDigitC s2 = some (ds, ':' :: s4) ∧
      reqRun (fun c => !(c = ']')) s4 = some (t, ']' :: s6) ∧
      m = { index := ds, desc := group2 t } ∧
      txt = markerHead ++ (w1 ++ (ds ++ (':' :: (t ++ [']'])))) ∧
      rest = s6 := by
  unfold matchAt at h
  split at h
  next => cases h
  next s1 hlit =>
    split at h
    next => cases h
    next w1 s2 hw =>
      split at h
      next => cases h
      next ds s3 hd =>
        split at h
        next => cases h
        next c3 s4 =>
          split at h
          next hc3 =>
            subst hc3
            split at h
            next => cases h
            next t s5 ht =>
              split at h
              next => cases h
              next c5 s6 =>
                split at h
                next hc5 =>
                  subst hc5
                  simp only [Option.some.injEq, Prod.mk.injEq] at h
                  exact ⟨s1, w1, s2, ds, s4, t, s6, hlit, hw, hd, ht,
                    h.1.symm, h.2.1.symm, h.2.2.symm⟩
                next => cases h
          next => cases h

lemma matchAt_intro {s s1 w1 s2 ds s4 t s6 : List Char}
    (hlit : dropLit markerHead s = some s1)
    (hw : reqRun isSpaceC s1 = some (w1, s2))
    (hd : reqRun isDigitC s2 = some (ds, ':' :: s4))
    (ht : reqRun (fun c => !(c = ']')) s4 = some (t, ']' :: s6)) :
    matchAt s = some ({ index := ds, desc := group2 t },
      markerHead ++ (w1 ++ (ds ++ (':' :: (t ++ [']'])))), s6) := by
  unfold matchAt
  rw [hlit]
  dsimp only
  rw [hw]
  dsimp only
  rw [hd]
  dsimp only
  rw [if_pos rfl, ht]
  dsimp only
  rw [if_pos rfl]

lemma matchAt_shape {s : List Char} {m : Marker} {txt rest : List Char}
    (h : matchAt s = some (m, txt, rest)) : s = txt ++ rest ∧ txt ≠ [] := by
  obtain ⟨s1, w1, s2, ds, s4, t, s6, hlit, hw, hd, ht, hm, htxt, hrest⟩ :=
    matchAt_elim h
  have e1 := dropLit_shape markerHead s s1 hlit
  have e2 := (reqRun_shape hw).1
  have e3 := (reqRun_shape hd).1
  have e4 := (reqRun_shape ht).1
  subst htxt hrest
  constructor
  · rw [e1, e2, e3, e4]
    simp [markerHead]
  · simp [markerHead]

lemma matchAt_append {s v : List Char} {m : Marker} {txt rest : List Char}
    (h : matchAt s = some (m, txt, rest)) :
    matchAt (s ++ v) = some (m, txt, rest ++ v) := by
  obtain ⟨s1, w1, s2, ds, s4, t, s6, hlit, hw, hd, ht, hm, htxt, hrest⟩ :=
    matchAt_elim h
  have e1 := dropLit_shape markerHead s s1 hlit
  have hlit' : dropLit markerHead (s ++ v) = some (s1 ++ v) := by
    rw [e1, List.append_assoc]
    exact dropLit_self markerHead (s1 ++ v)
  have hs2ne : s2 ≠ [] := by
    have := (reqRun_shape hd).1
    rw [this]
    simp
  have hw' : reqRun isSpaceC (s1 ++ v) = some (w1, s2 ++ v) :=
    reqRun_append v hw hs2ne
  have hd' : reqRun isDigitC (s2 ++ v) = some (ds, ':' :: (s4 ++ v)) := by
    have := reqRun_append v hd (by simp)
    simpa using this
  have ht' : reqRun (fun c => !(c = ']')) (s4 ++ v) =
      some (t, ']' :: (s6 ++ v)) := by
    have := reqRun_append v ht (by simp)
    simpa using this
  have := matchAt_intro hlit' hw' hd' ht'
  rw [this, hm, htxt, hrest]

lemma findMarker_shape : ∀ {s pre : List Char} {m : Marker} {txt rest : List Char},
    findMarker s = some (pre, m, txt, rest) →
    s = pre ++ (txt ++ rest) ∧ txt ≠ [] := by
  intro s
  induction s with
  | nil => intro pre m txt rest h; cases h
  | cons c cs ih =>
    intro pre m txt rest h
    unfold findMarker at h
    split at h
    next m' txt' rest' hm =>
      simp only [Option.some.injEq, Prod.mk.injEq] at h
      obtain ⟨h1, h2, h3, h4⟩ := h
      subst h1 h2 h3 h4
      have := matchAt_shape hm
      simpa using this
    next hm =>
      split at h
      next pre' m' txt' rest' hf =>
        simp only [Option.some.injEq, Prod.mk.injEq] at h
        obtain ⟨h1, h2, h3, h4⟩ := h
        subst h1 h2 h3 h4
        have := ih hf
        constructor
        · rw [List.cons_append, ← this.1]
        · exact this.2
      next => cases h

lemma findMarker_pre_none : ∀ {s pre : List Char} {m : Marker} {txt rest : List Char},
    findMarker s = some (pre, m, txt, rest) → findMarker pre = none := by
  intro s
  induction s with
  | nil => intro pre m txt rest h; cases h
  | cons c cs ih =>
    intro pre m txt rest h
    unfold findMarker at h
    split at h
    next m' txt' rest' hm =>
      simp only [Option.some.injEq, Prod.mk.injEq] at h
      obtain ⟨h1, _, _, _⟩ := h
      subst h1
      rfl
    next hm =>
      split at h
      next pre' m' txt' rest' hf =>
        simp only [Option.some.injEq, Prod.mk.injEq] at h
        obtain ⟨h1, h2, h3, h4⟩ := h
        subst h1 h2 h3 h4
        have hpre' := ih hf
        have hshape := (findMarker_shape hf).1
        have hmp : matchAt (c :: pre') = none := by
          cases hmp : matchAt (c :: pre') with
          | none => rfl
          | some r =>
            obtain ⟨m2, txt2, rest2⟩ := r
            exfalso
            have hext := matchAt_append (v := txt' ++ rest') hmp
            rw [show (c :: pre') ++ (txt' ++ rest') = c :: cs from by
              rw [List.cons_append, ← hshape], hm] at hext
            cases hext
        unfold findMarker
        rw [hmp, hpre']
      next => cases h

lemma findMarker_rest_lt {s pre : List Char} {m : Marker} {txt rest : List Char}
    (h : findMarker s = some (pre, m, txt, rest)) :
    rest.length < s.length := by
  obtain ⟨hs, hne⟩ := findMarker_shape h
  rw [hs]
  simp only [List.length_append]
  have : txt.length ≠ 0 := by simpa using hne
  omega

/-- Joint structure of the scan decomposition and of `re.sub`: the
decomposition reassembles the input, `injectAux` equals the decomposition
with each match replaced by its rendering, and no gap contains a match. -/
lemma splitMarkersAux_spec (render : Marker → List Char) :
    ∀ f s, s.length < f →
      recombineIn (splitMarkersAux f s).1 (splitMarkersAux f s).2 = s ∧
      injectAux render f s =
        recombineOut render (splitMarkersAux f s).1 (splitMarkersAux f s).2 ∧
      (∀ p ∈ (splitMarkersAux f s).1, findMarker p.1 = none) ∧
      findMarker (splitMarkersAux f s).2 = none := by
  intro f
  induction f with
  | zero => intro s h; omega
  | succ f ih =>
    intro s hs
    cases hf : findMarker s with
    | none =>
      simp only [splitMarkersAux, injectAux, hf]
      refine ⟨rfl, rfl, ?_, trivial⟩
      intro p hp
      cases hp
    | some r =>
      obtain ⟨pre, m, txt, rest⟩ := r
      have hshape := findMarker_shape hf
      have hlt := findMarker_rest_lt hf
      have hrec := ih rest (by omega)
      simp only [splitMarkersAux, injectAux, hf]
      refine ⟨?_, ?_, ?_, hrec.2.2.2⟩
      · show pre ++ (txt ++ recombineIn (splitMarkersAux f rest).1
          (splitMarkersAux f rest).2) = s
        rw [hrec.1, hshape.1]
      · show pre ++ (render m ++ injectAux render f rest) =
          pre ++ (render m ++ recombineOut render (splitMarkersAux f rest).1
            (splitMarkersAux f rest).2)
        rw [hrec.2.1]
      · intro p hp
        cases hp with
        | head => exact findMarker_pre_none hf
        | tail _ hp' => exact hrec.2.2.1 p hp'

/-! ### The substitution of `inject_ai_images_into_content` (image_convert.py) -/

/-- The fixed English prompt decoration wrapped around the translated
description (step 2 of `_replace`). -/
def build_prompt (desc_en : List Char) : List Char :=
  ("High-quality minimalist scientific infographic on white background, " ++
   "no people, no faces, no realistic photos. " ++
   "Topic: ").toList ++ desc_en ++
  (". " ++
   "Vector-style diagram or block-scheme with clear labels, arrows and data flow.").toList

/-- Text of the caption line `Rasm {index}. {desc}`. -/
def caption (index desc : List Char) : List Char :=
  "Rasm ".toList ++ index ++ ". ".toList ++ desc

/-- The html block f-string before `{img_html}`. -/
def imageBlockPre : List Char :=
  "\n        <div class=\"image-container\" style=\"text-align:center; margin:16px 0;\">\n          ".toList

/-- The html block f-string between `{img_html}` and the caption. -/
def imageBlockMid : List Char :=
  "\n          <p class=\"image-caption\" style=\"font-size:12pt; margin-top:4px; text-align:center; text-indent:0;\">\n            ".toList

/-- The html block f-string after the caption. -/
def imageBlockSuf : List Char :=
  "\n          </p>\n        </div>\n        ".toList

/-- The `html_block` f-string of `_replace`. -/
def image_html_block (img_html index desc : List Char) : List Char :=
  imageBlockPre ++ img_html ++ imageBlockMid ++ caption index desc ++ imageBlockSuf

/-- `_replace` from `inject_ai_images_into_content` (image_convert.py):
strip the description, translate it, decorate the prompt, generate the
image URL, inline it, and build the captioned block with the original
(untranslated) stripped description.  `translate`, `gen` and `u2i` are the
translation step, the image-generation orchestrator and `url_to_img_tag`
(the latter is not under src/ and stays an oracle). -/
def replaceMarker (translate gen u2i : List Char → List Char) (m : Marker) :
    List Char :=
  let desc_uz := pyStrip m.desc
  let desc_en := translate desc_uz
  let prompt := build_prompt desc_en
  let img_url := gen prompt
  let img_html := u2i img_url
  image_html_block img_html m.index desc_uz

/-- `inject_ai_images_into_content` from the source: empty input maps to
empty output, otherwise `IMAGE_MARKER_RE.sub(_replace, raw)`. -/
def inject_ai_images_into_content (translate gen u2i : List Char → List Char)
    (raw : List Char) : List Char :=
  if raw = [] then [] else subMarkers (replaceMarker translate gen u2i) raw

lemma inject_eq_recombineOut (translate gen u2i : List Char → List Char)
    (raw : List Char) :
    inject_ai_images_into_content translate gen u2i raw =
      recombineOut (replaceMarker translate gen u2i)
        (splitMarkers raw).1 (splitMarkers raw).2 := by
  have hspec := splitMarkersAux_spec (replaceMarker translate gen u2i)
    (raw.length + 1) raw (by omega)
  unfold inject_ai_images_into_content subMarkers splitMarkers
  by_cases hraw : raw = []
  · rw [if_pos hraw]
    subst hraw
    exact (hspec.2.1).symm ▸ hspec.2.1
  · rw [if_neg hraw]
    exact hspec.2.1

/-- C5.  Marker substitution replaces every marker exactly once and
preserves all text outside the matched marker spans byte-for-byte: the
scan decomposition reassembles the input exactly, the output is the same
decomposition with each matched span replaced by its rendered block, and
no gap (before, between, or after the markers) contains any marker match. -/
theorem inject_preserves_frame (translate gen u2i : List Char → List Char)
    (raw : List Char) :
    recombineIn (splitMarkers raw).1 (splitMarkers raw).2 = raw ∧
    inject_ai_images_into_content translate gen u2i raw =
      recombineOut (replaceMarker translate gen u2i)
        (splitMarkers raw).1 (splitMarkers raw).2 ∧
    (∀ p ∈ (splitMarkers raw).1, findMarker p.1 = none) ∧
    findMarker (splitMarkers raw).2 = none := by
  have hspec := splitMarkersAux_spec (replaceMarker translate gen u2i)
    (raw.length + 1) raw (by omega)
  exact ⟨hspec.1, inject_eq_recombineOut translate gen u2i raw,
    hspec.2.2.1, hspec.2.2.2⟩

/-- C4.  The output is the input with exactly one image block substituted
per marker; each marker's block is rendered with the marker's original
stripped description as the caption argument (the generation prompt uses
the translated description, but the caption does not), and the block
contains the caption text `Rasm {index}. {original description}`. -/
theorem inject_caption_untranslated (translate gen u2i : List Char → List Char)
    (raw : List Char) :
    inject_ai_images_into_content translate gen u2i raw =
      recombineOut (replaceMarker translate gen u2i)
        (splitMarkers raw).1 (splitMarkers raw).2 ∧
    ∀ p ∈ (splitMarkers raw).1,
      replaceMarker translate gen u2i p.2.1 =
        image_html_block
          (u2i (gen (build_prompt (translate (pyStrip p.2.1.desc)))))
          p.2.1.index (pyStrip p.2.1.desc) ∧
      caption p.2.1.index (pyStrip p.2.1.desc) <:+:
        replaceMarker translate gen u2i p.2.1 := by
  refine ⟨inject_eq_recombineOut translate gen u2i raw, ?_⟩
  intro p _hp
  refine ⟨rfl, ?_⟩
  refine ⟨imageBlockPre ++ u2i (gen (build_prompt (translate (pyStrip p.2.1.desc)))) ++
    imageBlockMid, imageBlockSuf, ?_⟩
  simp [replaceMarker, image_html_block, List.append_assoc]

/-- A service whose first poll is still-working and whose second raises. -/
def envErrSecond : Nat → JobEnv := fun _ =>
  { submit := SubmitOutcome.ok (some "id7".toList)
    polls := fun n =>
      if n = 0 then PollOutcome.ok ⟨some "processing".toList, none, none, none⟩
      else PollOutcome.err }

/-- Witness for C10 at a concrete service raising on the second poll. -/
theorem poll_error_aborts_job_witness :
    deapi_poll_result_count "t".toList (envErrSecond 1).polls MAX_ATTEMPTS =
      (none, 2) ∧
    (genLoopCount "t".toList envErrSecond 1 (0 + 1)).1 =
      (genLoopCount "t".toList envErrSecond 2 0).1 :=
  poll_error_aborts_job "t".toList envErrSecond 1 0 1 (by decide) (by decide)
    (by decide)
    (fun j hj => by
      have : j = 0 := by omega
      subst this
      decide)
    (by decide)

/-! ## main.py: `clean_ai_content`

The cleanup pass is five `re.sub` calls followed by `strip()`:
`\n+\s*(Izoh|Eslatma)\s*:.*$` (IGNORECASE|DOTALL) cuts a trailing note
block, `^\s*\[FOYDALANILGAN ADABIYOTLAR YANGI SAHIFA\]\s*$` (MULTILINE) and
`^\s*---\s*$` (MULTILINE) delete special lines, `^#{1,6}\s*` (MULTILINE)
strips heading markers, `\n{2,}` collapses blank runs. -/

/-- Does the note pattern `\n+\s*(Izoh|Eslatma)\s*:` match here?  (For a
match starting at this position the first character must be a newline; the
rest of `\n+\s*` is an arbitrary whitespace run.) -/
def isNoteStart (s : List Char) : Bool :=
  match s with
  | [] => false
  | c :: r =>
    if c = '\n' then
      let r1 := r.dropWhile isSpaceC
      match dropLitCI "izoh".toList r1 with
      | some r2 => (r2.dropWhile isSpaceC).head? = some ':'
      | none =>
        match dropLitCI "eslatma".toList r1 with
        | some r2 => (r2.dropWhile isSpaceC).head? = some ':'
        | none => false
    else false

/-- Truncate at the leftmost note match; `.*$` under DOTALL consumes the
whole remainder. -/
def cutNote : List Char → List Char
  | [] => []
  | c :: r => if isNoteStart (c :: r) then [] else c :: cutNote r

/-- Split off the suffix starting at the last newline, if any. -/
def lastNlSplit : List Char → Option (List Char × List Char)
  | [] => none
  | c :: r =>
    match lastNlSplit r with
    | some q => some (c :: q.1, q.2)
    | none => if c = '\n' then some ([], c :: r) else none

/-- Try `\s*LIT\s*$` at a `^` position (MULTILINE).  The leading `\s*` is a
maximal whitespace run; after the literal, the greedy trailing `\s*`
backtracks to the largest prefix whose end is the end of the string or
sits right before a newline.  Returns the remainder after the match and
whether the next scan position is again a line start (i.e. the last
consumed character was a newline). -/
def matchLineLit (lit : List Char) (s : List Char) : Option (List Char × Bool) :=
  match dropLit lit (takeRun isSpaceC s).2 with
  | none => none
  | some r2 =>
    if (takeRun isSpaceC r2).2 = [] then some ([], false)
    else
      match lastNlSplit (takeRun isSpaceC r2).1 with
      | some q => some (q.2 ++ (takeRun isSpaceC r2).2, q.1.getLast? = some '\n')
      | none => none

/-- `re.sub(r"^\s*LIT\s*$", "", text, flags=re.MULTILINE)`: scan the string
left to right, attempting the pattern at every line start. -/
def lineSubGo (lit : List Char) : Nat → Bool → List Char → List Char
  | 0, _, s => s
  | f + 1, atStart, s =>
    match s with
    | [] => []
    | c :: r =>
      if atStart then
        match matchLineLit lit (c :: r) with
        | some q => lineSubGo lit f q.2 q.1
        | none => c :: lineSubGo lit f (c = '\n') r
      else c :: lineSubGo lit f (c = '\n') r

/-- `re.sub(r"^\s*LIT\s*$", "", text, flags=re.MULTILINE)` with enough fuel. -/
def lineSub (lit : List Char) (s : List Char) : List Char :=
  lineSubGo lit (s.length + 1) true s

/-- The special marker line removed by `clean_ai_content`. -/
def foydLit : List Char := "[FOYDALANILGAN ADABIYOTLAR YANGI SAHIFA]".toList

/-- The horizontal-rule literal removed by `clean_ai_content`. -/
def dashLit : List Char := "---".toList

/-- `re.sub(r"^#{1,6}\s*", "", text, flags=re.MULTILINE)`: at every line
start, up to six `#` and the following whitespace run are deleted. -/
def hashGo : Nat → Bool → List Char → List Char
  | 0, _, s => s
  | f + 1, atStart, s =>
    match s with
    | [] => []
    | c :: r =>
      if atStart && c = '#' then
        let hs := (takeRun (fun d => d = '#') (c :: r)).1
        let r1 := (takeRun (fun d => d = '#') (c :: r)).2
        if hs.length ≤ 6 then
          let w := (takeRun isSpaceC r1).1
          let r2 := (takeRun isSpaceC r1).2
          hashGo f (w.getLast? = some '\n') r2
        else hashGo f false (hs.drop 6 ++ r1)
      else c :: hashGo f (c = '\n') r

/-- The `#`-stripping substitution with enough fuel. -/
def hashSub (s : List Char) : List Char :=
  hashGo (s.length + 1) true s

/-- `re.sub(r"\n{2,}", "\n\n", text)`: emit pending newlines capped at two
whenever a non-newline (or the end) is reached. -/
def collapseNlGo (pending : Nat) : List Char → List Char
  | [] => List.replicate (min pending 2) '\n'
  | c :: r =>
    if c = '\n' then collapseNlGo (pending + 1) r
    else List.replicate (min pending 2) '\n' ++ c :: collapseNlGo 0 r

/-- The blank-run collapsing substitution. -/
def collapseNl (s : List Char) : List Char :=
  collapseNlGo 0 s

/-- `clean_ai_content` from main.py: note cut, special-line removals,
heading-marker strip, blank-run collapse, `strip()`. -/
def clean_ai_content (s : List Char) : List Char :=
  pyStrip (collapseNl (hashSub (lineSub dashLit (lineSub foydLit (cutNote s)))))

/-! ## main.py: `ai_content_to_html_paragraphs` -/

/-- `re.match(r"^\s*\|.*\|\s*$", line)`: after stripping surrounding
whitespace the line starts and ends with distinct `|` characters, and `.`
cannot cross a newline inside. -/
def isTableRow (line : List Char) : Bool :=
  let t := pyStrip line
  decide (2 ≤ t.length) && t.head? = some '|' && t.getLast? = some '|' &&
    !((t.drop 1).dropLast.contains '\n')

/-- One `\s*-+\s*` group of the separator-row pattern. -/
def dashGroup (s : List Char) : Option (List Char) :=
  let r1 := (takeRun isSpaceC s).2
  let d := (takeRun (fun c => c = '-') r1).1
  let r2 := (takeRun (fun c => c = '-') r1).2
  if d = [] then none else some (takeRun isSpaceC r2).2

/-- Continuation of the separator-row pattern after `k` dash groups:
`(\|\s*-+\s*)+\|?\s*$` with at least two groups in total. -/
def sepRowTail (lit : Unit) : Nat → List Char → Nat → Bool
  | 0, _, _ => false
  | f + 1, s, k =>
    match s with
    | [] => decide (2 ≤ k)
    | c :: r =>
      if c = '|' then
        match dashGroup r with
        | some r2 => sepRowTail lit f r2 (k + 1)
        | none => ((takeRun isSpaceC r).2 = []) && decide (2 ≤ k)
      else false

/-- `re.match(r"^\s*\|?\s*-+\s*(\|\s*-+\s*)+\|?\s*$", row)`: the markdown
separator rows dropped by `flush_table`. -/
def isSepRow (row : List Char) : Bool :=
  let r0 := (takeRun isSpaceC row).2
  let r1 := match r0 with
    | c :: t => if c = '|' then t else r0
    | [] => r0
  match dashGroup r1 with
  | none => false
  | some r2 => sepRowTail () (row.length + 1) r2 1

/-- The `<table ...>` opening tag emitted by `flush_table`. -/
def tableOpenTag : List Char :=
  "<table border=\"1\" cellspacing=\"0\" cellpadding=\"4\" style=\"border-collapse:collapse;margin:8px 0;font-size:12pt; width:100%;\">".toList

/-- Strip all leading and trailing `|` characters (`str.strip("|")`). -/
def stripPipes (s : List Char) : List Char :=
  ((s.dropWhile (fun c => c = '|')).reverse.dropWhile (fun c => c = '|')).reverse

/-- `[c.strip() for c in row.strip().strip("|").split("|")]`. -/
def cellsOf (row : List Char) : List (List Char) :=
  ((stripPipes (pyStrip row)).splitOn '|').map pyStrip

/-- `"<tr>" + "".join(f"<{tag}>{c}</{tag}>" ...) + "</tr>"`. -/
def rowHtml (tag : List Char) (row : List Char) : List Char :=
  "<tr>".toList ++
    (List.flatten ((cellsOf row).map
      (fun c => '<' :: tag ++ '>' :: c ++ '<' :: '/' :: tag ++ ['>']))) ++
    "</tr>".toList

/-- `flush_table`: drop separator rows; the first remaining row is the
header (`th`), the rest are data rows (`td`); `none` when nothing is
emitted. -/
def tableHtml (rows : List (List Char)) : Option (List Char) :=
  match rows with
  | [] => none
  | _ :: _ =>
    match rows.filter (fun r => !(isSepRow r)) with
    | [] => none
    | r0 :: rest =>
      some (joinNL (tableOpenTag ::
        (rowHtml "th".toList r0 :: rest.map (rowHtml "td".toList)) ++
        ["</table>".toList]))

/-- Tail of the exact heading patterns: `\s*WORD\s*$` case-insensitively. -/
def headingTail (word : List Char) (r : List Char) : Bool :=
  match dropLitCI word ((takeRun isSpaceC r).2) with
  | some r2 => (takeRun isSpaceC r2).2 = []
  | none => false

/-- `^{num}\.\s*WORD\s*$` case-insensitively, applied to a stripped line. -/
def isHeadingLine (num : Char) (word : List Char) (st : List Char) : Bool :=
  match st with
  | [] => false
  | c :: rest =>
    if c = num then
      match rest with
      | [] => false
      | d :: r => if d = '.' then headingTail word r else false
    else false

/-- `^1\.\s*Kirish\s*$` (IGNORECASE). -/
def isH1 (st : List Char) : Bool := isHeadingLine '1' "kirish".toList st

/-- `^2\.\s*Asosiy qism\s*$` (IGNORECASE). -/
def isH2 (st : List Char) : Bool := isHeadingLine '2' "asosiy qism".toList st

/-- `^3\.\s*Xulosa\s*$` (IGNORECASE). -/
def isH3 (st : List Char) : Bool := isHeadingLine '3' "xulosa".toList st

/-- `^4\.\s*Foydalanilgan adabiyotlar` (IGNORECASE, prefix match). -/
def isH4 (st : List Char) : Bool :=
  match st with
  | [] => false
  | c :: rest =>
    if c = '4' then
      match rest with
      | [] => false
      | d :: r =>
        if d = '.' then
          (dropLitCI "foydalanilgan adabiyotlar".toList
            ((takeRun isSpaceC r).2)).isSome
        else false
    else false

/-- `^\d+\.\d+\.\s+.+$` applied to a stripped line (`.` cannot cross a
newline, and a stripped line cannot end in one). -/
def isSubHeading (st : List Char) : Bool :=
  let d1 := (takeRun isDigitC st).1
  let r1 := (takeRun isDigitC st).2
  if d1 = [] then false
  else
    match r1 with
    | [] => false
    | c :: r2 =>
      if c = '.' then
        let d2 := (takeRun isDigitC r2).1
        let r3 := (takeRun isDigitC r2).2
        if d2 = [] then false
        else
          match r3 with
          | [] => false
          | c2 :: r4 =>
            if c2 = '.' then
              let w := (takeRun isSpaceC r4).1
              let r5 := (takeRun isSpaceC r4).2
              w ≠ [] && r5 ≠ [] && !(r5.contains '\n')
            else false
      else false

/-- `<p class="section-title-main">1. Kirish</p>`. -/
def h1block : List Char := "<p class=\"section-title-main\">1. Kirish</p>".toList

/-- `<p class="section-title-main">2. Asosiy qism</p>`. -/
def h2block : List Char := "<p class=\"section-title-main\">2. Asosiy qism</p>".toList

/-- `<p class="section-title-main">3. Xulosa</p>`. -/
def h3block : List Char := "<p class=\"section-title-main\">3. Xulosa</p>".toList

/-- `<p class="section-title-main">4. Foydalanilgan adabiyotlar</p>`. -/
def h4block : List Char :=
  "<p class=\"section-title-main\">4. Foydalanilgan adabiyotlar</p>".toList

/-- The forced page break emitted before the references heading. -/
def breakBlock : List Char :=
  "<br style=\"page-break-before:always; mso-special-character:line-break;\" />".toList

/-- `<p class="section-title-sub">{stripped}</p>`. -/
def subBlock (st : List Char) : List Char :=
  "<p class=\"section-title-sub\">".toList ++ st ++ "</p>".toList

/-- `<p>{stripped}</p>`. -/
def paraBlock (st : List Char) : List Char :=
  "<p>".toList ++ st ++ "</p>".toList

/-- The line-classification loop of `ai_content_to_html_paragraphs`:
table rows are buffered; any other line flushes the buffer and is
classified as blank, main heading (the fourth preceded by a page break),
subheading, already-markup passthrough, or paragraph. -/
def processLines : List (List Char) → List (List Char) → List (List Char) →
    List (List Char)
  | [], buf, acc => acc ++ (tableHtml buf).toList
  | line :: rest, buf, acc =>
    if isTableRow line then processLines rest (buf ++ [line]) acc
    else
      let acc1 := acc ++ (tableHtml buf).toList
      let st := pyStrip line
      if st = [] then processLines rest [] acc1
      else if isH1 st then processLines rest [] (acc1 ++ [h1block])
      else if isH2 st then processLines rest [] (acc1 ++ [h2block])
      else if isH3 st then processLines rest [] (acc1 ++ [h3block])
      else if isH4 st then processLines rest [] (acc1 ++ [breakBlock, h4block])
      else if isSubHeading st then processLines rest [] (acc1 ++ [subBlock st])
      else if st.head? = some '<' then processLines rest [] (acc1 ++ [st])
      else processLines rest [] (acc1 ++ [paraBlock st])

/-- The first double occurrence of `*`: content before it and the rest
after it (the lazy `(.+?)\*\*` closing search). -/
def findCloseStars : List Char → Option (List Char × List Char)
  | [] => none
  | c :: r =>
    if c = '*' && r.head? = some '*' then some ([], r.tail)
    else
      match findCloseStars r with
      | some q => some (c :: q.1, q.2)
      | none => none

/-- `re.sub(r"\*\*(.+?)\*\*", r"<strong>\1</strong>", content, flags=DOTALL)`:
at `**` with at least one content character, the lazy group runs to the
first following `**`; otherwise the scan advances one character. -/
def boldSubGo : Nat → List Char → List Char
  | 0, s => s
  | _ + 1, [] => []
  | f + 1, c :: tl =>
    if c = '*' then
      match tl with
      | c2 :: c0 :: tl2 =>
        if c2 = '*' then
          match findCloseStars tl2 with
          | some q =>
            "<strong>".toList ++ (c0 :: q.1) ++ "</strong>".toList ++
              boldSubGo f q.2
          | none => c :: boldSubGo f tl
        else c :: boldSubGo f tl
      | _ => c :: boldSubGo f tl
    else c :: boldSubGo f tl

/-- The bold substitution with enough fuel. -/
def boldSub (s : List Char) : List Char :=
  boldSubGo (s.length + 1) s

/-- `ai_content_to_html_paragraphs` from main.py.  `latexSub` stands for
`replace_latex_with_images`, which is imported from a module not under
src/; modelled from the spec as an oracle substitution of formula spans
(identity on formula-free text). -/
def ai_content_to_html_paragraphs (latexSub : List Char → List Char)
    (content : List Char) : List Char :=
  if content = [] then []
  else joinNL (processLines (splitLines (boldSub (latexSub content))) [] [])

/-- The body-assembly function of C9: cleanup pass then line
classification. -/
def assembleBody (latexSub : List Char → List Char) (s : List Char) :
    List Char :=
  ai_content_to_html_paragraphs latexSub (clean_ai_content s)

/-- The identity oracle for `replace_latex_with_images`, corresponding to
input without formula markers. -/
def latexId : List Char → List Char := fun t => t

/-! ### C7: the separator row of a three-line table never appears as data -/

/-- C7.  Three consecutive pipe-delimited lines whose second is a markdown
dash-separator (and whose first and third are not) produce exactly one
table: the first line is the header (`th`) row, the third line the single
data (`td`) row, and the separator row is dropped. -/
theorem table_separator_dropped (l1 l2 l3 : List Char)
    (ht1 : isTableRow l1 = true) (ht2 : isTableRow l2 = true)
    (ht3 : isTableRow l3 = true) (hsep : isSepRow l2 = true)
    (hn1 : isSepRow l1 = false) (hn3 : isSepRow l3 = false) :
    processLines [l1, l2, l3] [] [] =
      [joinNL (tableOpenTag ::
        (rowHtml "th".toList l1 :: [rowHtml "td".toList l3]) ++
        ["</table>".toList])] := by
  simp only [processLines, ht1, ht2, ht3, if_true, List.nil_append,
    List.cons_append, List.append_nil]
  simp [tableHtml, List.filter, hsep, hn1, hn3]

/-- Witness for C7 at a concrete three-line markdown table. -/
theorem table_separator_dropped_witness :
    processLines ["| a | b |".toList, "|---|---|".toList, "| c | d |".toList]
      [] [] =
      [joinNL (tableOpenTag ::
        (rowHtml "th".toList "| a | b |".toList ::
          [rowHtml "td".toList "| c | d |".toList]) ++
        ["</table>".toList])] :=
  table_separator_dropped _ _ _ (by decide) (by decide) (by decide) (by decide)
    (by decide) (by decide)

/-! ### C6: the page break belongs to the references heading alone -/

/-- Every references-heading block is immediately preceded by the page
break, and every page break is immediately followed by the
references-heading block. -/
def PairOK (blocks : List (List Char)) : Prop :=
  (∀ i, blocks[i]? = some h4block →
    ∃ j, i = j + 1 ∧ blocks[j]? = some breakBlock) ∧
  (∀ i, blocks[i]? = some breakBlock → blocks[i + 1]? = some h4block)

/-- Is this block the page break? -/
def brkP : List Char → Bool := fun b => decide (b = breakBlock)

/-- Is this line a references-heading line (the fourth top-level heading)? -/
def isRefLine (l : List Char) : Bool := !isTableRow l && isH4 (pyStrip l)

lemma ne_of_getElem2 {a b : List Char} {i : Nat} {c1 c2 : Char}
    (ha : a[i]? = some c1) (hb : b[i]? = some c2) (hne : c1 ≠ c2) : a ≠ b := by
  intro h
  subst h
  rw [ha] at hb
  exact hne (Option.some.inj hb)

lemma subBlock_get1 (st : List Char) : (subBlock st)[1]? = some 'p' := by
  unfold subBlock
  rw [List.append_assoc, List.getElem?_append_left (by decide)]
  decide

lemma subBlock_get24 (st : List Char) : (subBlock st)[24]? = some 's' := by
  unfold subBlock
  rw [List.append_assoc, List.getElem?_append_left (by decide)]
  decide

lemma paraBlock_get1 (st : List Char) : (paraBlock st)[1]? = some 'p' := by
  unfold paraBlock
  rw [List.append_assoc, List.getElem?_append_left (by decide)]
  decide

lemma paraBlock_get2 (st : List Char) : (paraBlock st)[2]? = some '>' := by
  unfold paraBlock
  rw [List.append_assoc, List.getElem?_append_left (by decide)]
  decide

lemma joinNL_cons_cons (x y : List Char) (ys : List (List Char)) :
    joinNL (x :: y :: ys) = x ++ '\n' :: joinNL (y :: ys) := rfl

lemma tableHtml_get1 {rows : List (List Char)} {t : List Char}
    (h : tableHtml rows = some t) : t[1]? = some 't' := by
  unfold tableHtml at h
  split at h
  · cases h
  next =>
    split at h
    · cases h
    next r0 rest hfil =>
      have ht := Option.some.inj h
      subst ht
      rw [List.cons_append, List.cons_append, joinNL_cons_cons]
      rw [List.getElem?_append_left (by decide)]
      decide

lemma subBlock_ne_brk (st : List Char) : subBlock st ≠ breakBlock :=
  ne_of_getElem2 (subBlock_get1 st)
    (show breakBlock[1]? = some 'b' from by decide) (by decide)

lemma subBlock_ne_h4 (st : List Char) : subBlock st ≠ h4block :=
  ne_of_getElem2 (subBlock_get24 st)
    (show h4block[24]? = some 'm' from by decide) (by decide)

lemma paraBlock_ne_brk (st : List Char) : paraBlock st ≠ breakBlock :=
  ne_of_getElem2 (paraBlock_get1 st)
    (show breakBlock[1]? = some 'b' from by decide) (by decide)

lemma paraBlock_ne_h4 (st : List Char) : paraBlock st ≠ h4block :=
  ne_of_getElem2 (paraBlock_get2 st)
    (show h4block[2]? = some ' ' from by decide) (by decide)

lemma tableHtml_ne_brk {rows : List (List Char)} {t : List Char}
    (h : tableHtml rows = some t) : t ≠ breakBlock :=
  ne_of_getElem2 (tableHtml_get1 h)
    (show breakBlock[1]? = some 'b' from by decide) (by decide)

lemma tableHtml_ne_h4 {rows : List (List Char)} {t : List Char}
    (h : tableHtml rows = some t) : t ≠ h4block :=
  ne_of_getElem2 (tableHtml_get1 h)
    (show h4block[1]? = some 'p' from by decide) (by decide)

lemma pairOK_nil : PairOK [] := by
  constructor
  · intro i hi; simp at hi
  · intro i hi; simp at hi

lemma pairOK_append_unit {acc : List (List Char)} (h : PairOK acc)
    {x : List Char} (hx1 : x ≠ breakBlock) (hx2 : x ≠ h4block) :
    PairOK (acc ++ [x]) := by
  constructor
  · intro i hi
    by_cases hlt : i < acc.length
    · rw [List.getElem?_append_left hlt] at hi
      obtain ⟨j, hj, hb⟩ := h.1 i hi
      exact ⟨j, hj, by rw [List.getElem?_append_left (by omega)]; exact hb⟩
    · rw [List.getElem?_append_right (by omega)] at hi
      rcases hd : i - acc.length with _ | k
      · rw [hd] at hi
        simp at hi
        exact absurd hi hx2
      · rw [hd] at hi
        simp at hi
  · intro i hi
    by_cases hlt : i < acc.length
    · rw [List.getElem?_append_left hlt] at hi
      have h2 := h.2 i hi
      have hlt2 : i + 1 < acc.length := by
        by_contra hge
        rw [List.getElem?_eq_none (by omega)] at h2
        cases h2
      rw [List.getElem?_append_left hlt2]
      exact h2
    · rw [List.getElem?_append_right (by omega)] at hi
      rcases hd : i - acc.length with _ | k
      · rw [hd] at hi
        simp at hi
        exact absurd hi hx1
      · rw [hd] at hi
        simp at hi

lemma pairOK_append_pair {acc : List (List Char)} (h : PairOK acc) :
    PairOK (acc ++ [breakBlock, h4block]) := by
  have hne : breakBlock ≠ h4block := by decide
  constructor
  · intro i hi
    by_cases hlt : i < acc.length
    · rw [List.getElem?_append_left hlt] at hi
      obtain ⟨j, hj, hb⟩ := h.1 i hi
      exact ⟨j, hj, by rw [List.getElem?_append_left (by omega)]; exact hb⟩
    · rw [List.getElem?_append_right (by omega)] at hi
      rcases hd : i - acc.length with _ | _ | k
      · rw [hd] at hi
        simp at hi
        exact absurd hi (by decide)
      · refine ⟨acc.length, by omega, ?_⟩
        rw [List.getElem?_append_right (by omega)]
        simp
      · rw [hd] at hi
        simp at hi
  · intro i hi
    by_cases hlt : i < acc.length
    · rw [List.getElem?_append_left hlt] at hi
      have h2 := h.2 i hi
      have hlt2 : i + 1 < acc.length := by
        by_contra hge
        rw [List.getElem?_eq_none (by omega)] at h2
        cases h2
      rw [List.getElem?_append_left hlt2]
      exact h2
    · rw [List.getElem?_append_right (by omega)] at hi
      rcases hd : i - acc.length with _ | _ | k
      · have hi' : i = acc.length := by omega
        rw [List.getElem?_append_right (by omega)]
        rw [show i + 1 - acc.length = 1 from by omega]
        rfl
      · rw [hd] at hi
        simp at hi
        exact absurd hi (by decide)
      · rw [hd] at hi
        simp at hi

lemma pairOK_flush {acc : List (List Char)} (h : PairOK acc)
    (buf : List (List Char)) : PairOK (acc ++ (tableHtml buf).toList) := by
  cases ht : tableHtml buf with
  | none => simpa using h
  | some t =>
    simp only [Option.toList]
    exact pairOK_append_unit h (tableHtml_ne_brk ht) (tableHtml_ne_h4 ht)

lemma processLines_pairOK :
    ∀ (lines buf acc : List (List Char)),
      (∀ l ∈ lines, (pyStrip l).head? ≠ some '<') → PairOK acc →
      PairOK (processLines lines buf acc) := by
  intro lines
  induction lines with
  | nil =>
    intro buf acc _ hacc
    exact pairOK_flush hacc buf
  | cons line rest ih =>
    intro buf acc hlines hacc
    have hrest : ∀ l ∈ rest, (pyStrip l).head? ≠ some '<' := by
      intro l hl
      exact hlines l (List.mem_cons_of_mem _ hl)
    have hline := hlines line (List.mem_cons_self _ _)
    have hacc1 : PairOK (acc ++ (tableHtml buf).toList) := pairOK_flush hacc buf
    unfold processLines
    by_cases htab : isTableRow line
    · rw [if_pos htab]
      exact ih _ _ hrest hacc
    · rw [if_neg htab]
      by_cases hb : pyStrip line = []
      · rw [if_pos hb]
        exact ih _ _ hrest hacc1
      · rw [if_neg hb]
        by_cases h1 : isH1 (pyStrip line)
        · rw [if_pos h1]
          exact ih _ _ hrest (pairOK_append_unit hacc1 (by decide) (by decide))
        · rw [if_neg h1]
          by_cases h2 : isH2 (pyStrip line)
          · rw [if_pos h2]
            exact ih _ _ hrest (pairOK_append_unit hacc1 (by decide) (by decide))
          · rw [if_neg h2]
            by_cases h3 : isH3 (pyStrip line)
            · rw [if_pos h3]
              exact ih _ _ hrest
                (pairOK_append_unit hacc1 (by decide) (by decide))
            · rw [if_neg h3]
              by_cases h4 : isH4 (pyStrip line)
              · rw [if_pos h4]
                exact ih _ _ hrest (pairOK_append_pair hacc1)
              · rw [if_neg h4]
                by_cases hsub : isSubHeading (pyStrip line)
                · rw [if_pos hsub]
                  exact ih _ _ hrest (pairOK_append_unit hacc1
                    (subBlock_ne_brk _) (subBlock_ne_h4 _))
                · rw [if_neg hsub]
                  rw [if_neg hline]
                  exact ih _ _ hrest (pairOK_append_unit hacc1
                    (paraBlock_ne_brk _) (paraBlock_ne_h4 _))

lemma isHeadingLine_head {num : Char} {w st : List Char}
    (h : isHeadingLine num w st = true) : st.head? = some num := by
  cases st with
  | nil => simp [isHeadingLine] at h
  | cons c rest =>
    by_cases hc : c = num
    · rw [hc]; rfl
    · simp only [isHeadingLine, if_neg hc] at h
      exact absurd h (by decide)

lemma isH4_head {st : List Char} (h : isH4 st = true) : st.head? = some '4' := by
  cases st with
  | nil => simp [isH4] at h
  | cons c rest =>
    by_cases hc : c = '4'
    · rw [hc]; rfl
    · simp only [isH4, if_neg hc] at h
      exact absurd h (by decide)

lemma isH4_false_of_head {st : List Char} {c : Char}
    (hh : st.head? = some c) (hc : c ≠ '4') : isH4 st = false := by
  cases h4 : isH4 st with
  | false => rfl
  | true =>
    exfalso
    have := isH4_head h4
    rw [hh] at this
    exact hc (Option.some.inj this)

lemma brkCount_flush (acc : List (List Char)) (buf : List (List Char)) :
    List.countP brkP (acc ++ (tableHtml buf).toList) = List.countP brkP acc := by
  cases ht : tableHtml buf with
  | none => simp
  | some t =>
    simp only [Option.toList, List.countP_append]
    have : brkP t = false := by
      simp only [brkP, decide_eq_false_iff_not]
      exact tableHtml_ne_brk ht
    simp [List.countP_cons, this]

lemma processLines_brkCount :
    ∀ (lines buf acc : List (List Char)),
      (∀ l ∈ lines, (pyStrip l).head? ≠ some '<') →
      List.countP brkP (processLines lines buf acc) =
        List.countP brkP acc + List.countP isRefLine lines := by
  intro lines
  induction lines with
  | nil =>
    intro buf acc _
    simpa [processLines] using brkCount_flush acc buf
  | cons line rest ih =>
    intro buf acc hlines
    have hrest : ∀ l ∈ rest, (pyStrip l).head? ≠ some '<' := by
      intro l hl
      exact hlines l (List.mem_cons_of_mem _ hl)
    have hline := hlines line (List.mem_cons_self _ _)
    unfold processLines
    by_cases htab : isTableRow line
    · rw [if_pos htab]
      rw [ih _ _ hrest]
      have hrl : isRefLine line = false := by simp [isRefLine, htab]
      rw [List.countP_cons, hrl]
      simp
    · rw [if_neg htab]
      have hcnt1 := brkCount_flush acc buf
      by_cases hb : pyStrip line = []
      · rw [if_pos hb]
        rw [ih _ _ hrest, hcnt1]
        have hrl : isRefLine line = false := by simp [isRefLine, hb, isH4]
        rw [List.countP_cons, hrl]
        simp
      · rw [if_neg hb]
        by_cases h1 : isH1 (pyStrip line)
        · rw [if_pos h1]
          rw [ih _ _ hrest, List.countP_append, hcnt1]
          have h4f : isH4 (pyStrip line) = false :=
            isH4_false_of_head (isHeadingLine_head h1) (by decide)
          have hrl : isRefLine line = false := by simp [isRefLine, h4f]
          have hL : List.countP brkP [h1block] = 0 := by decide
          rw [hL, List.countP_cons, hrl]
          simp
        · rw [if_neg h1]
          by_cases h2 : isH2 (pyStrip line)
          · rw [if_pos h2]
            rw [ih _ _ hrest, List.countP_append, hcnt1]
            have h4f : isH4 (pyStrip line) = false :=
              isH4_false_of_head (isHeadingLine_head h2) (by decide)
            have hrl : isRefLine line = false := by simp [isRefLine, h4f]
            have hL : List.countP brkP [h2block] = 0 := by decide
            rw [hL, List.countP_cons, hrl]
            simp
          · rw [if_neg h2]
            by_cases h3 : isH3 (pyStrip line)
            · rw [if_pos h3]
              rw [ih _ _ hrest, List.countP_append, hcnt1]
              have h4f : isH4 (pyStrip line) = false :=
                isH4_false_of_head (isHeadingLine_head h3) (by decide)
              have hrl : isRefLine line = false := by simp [isRefLine, h4f]
              have hL : List.countP brkP [h3block] = 0 := by decide
              rw [hL, List.countP_cons, hrl]
              simp
            · rw [if_neg h3]
              by_cases h4 : isH4 (pyStrip line)
              · rw [if_pos h4]
                rw [ih _ _ hrest, List.countP_append, hcnt1]
                have hrl : isRefLine line = true := by
                  simp [isRefLine, h4, htab]
                have hL : List.countP brkP [breakBlock, h4block] = 1 := by
                  decide
                rw [hL, List.countP_cons, hrl]
                simp
                omega
              · rw [if_neg h4]
                by_cases hsub : isSubHeading (pyStrip line)
                · rw [if_pos hsub]
                  rw [ih _ _ hrest, List.countP_append, hcnt1]
                  have hrl : isRefLine line = false := by simp [isRefLine, h4]
                  have hL : List.countP brkP [subBlock (pyStrip line)] = 0 := by
                    simp [List.countP_cons, brkP, subBlock_ne_brk]
                  rw [hL, List.countP_cons, hrl]
                  simp
                · rw [if_neg hsub]
                  rw [if_neg hline]
                  rw [ih _ _ hrest, List.countP_append, hcnt1]
                  have hrl : isRefLine line = false := by simp [isRefLine, h4]
                  have hL : List.countP brkP [paraBlock (pyStrip line)] = 0 := by
                    simp [List.countP_cons, brkP, paraBlock_ne_brk]
                  rw [hL, List.countP_cons, hrl]
                  simp

/-- C6.  In the classified body (for input lines that are not already
markup), the references heading and the forced page break appear in locked
pairs — every references-heading block is immediately preceded by the page
break and every page break is immediately followed by the
references-heading block — and the number of page breaks equals the number
of references-heading lines; in particular the other three top-level
headings never produce a page break. -/
theorem references_page_break (lines : List (List Char))
    (hlines : ∀ l ∈ lines, (pyStrip l).head? ≠ some '<') :
    PairOK (processLines lines [] []) ∧
    List.countP brkP (processLines lines [] []) =
      List.countP isRefLine lines := by
  constructor
  · exact processLines_pairOK lines [] [] hlines pairOK_nil
  · have := processLines_brkCount lines [] [] hlines
    simpa using this

/-- Witness for C6 at a concrete document skeleton. -/
theorem references_page_break_witness :
    PairOK (processLines ["1. Kirish".toList, "matn".toList,
      "2. Asosiy qism".toList, "3. Xulosa".toList,
      "4. Foydalanilgan adabiyotlar".toList, "kitob".toList] [] []) ∧
    List.countP brkP (processLines ["1. Kirish".toList, "matn".toList,
      "2. Asosiy qism".toList, "3. Xulosa".toList,
      "4. Foydalanilgan adabiyotlar".toList, "kitob".toList] [] []) =
      List.countP isRefLine ["1. Kirish".toList, "matn".toList,
        "2. Asosiy qism".toList, "3. Xulosa".toList,
        "4. Foydalanilgan adabiyotlar".toList, "kitob".toList] :=
  references_page_break _ (by decide)

/-! ### C9 infrastructure: adjacency pairs, newline structure, strip facts -/

lemma hasPair_cons_false {x a : Char} {r : List Char}
    (h : hasPair x (a :: r) = false) : hasPair x r = false := by
  cases r with
  | nil => rfl
  | cons b r' =>
    unfold hasPair at h
    simp only [Bool.or_eq_false_iff] at h
    exact h.2

lemma hasPair_append_split {x : Char} : ∀ {u v : List Char},
    hasPair x (u ++ v) = true →
    hasPair x u = true ∨ hasPair x v = true ∨
      (u.getLast? = some x ∧ v.head? = some x) := by
  intro u
  induction u with
  | nil => intro v h; exact Or.inr (Or.inl h)
  | cons a u' ih =>
    intro v h
    cases u' with
    | nil =>
      cases v with
      | nil => simp [hasPair] at h
      | cons b v' =>
        unfold hasPair at h
        rcases (Bool.or_eq_true _ _).mp h with hab | hv
        · simp only [Bool.and_eq_true, decide_eq_true_eq] at hab
          exact Or.inr (Or.inr ⟨by simp [hab.1], by simp [hab.2]⟩)
        · exact Or.inr (Or.inl hv)
    | cons b u'' =>
      rw [List.cons_append, List.cons_append] at h
      unfold hasPair at h
      rcases (Bool.or_eq_true _ _).mp h with hab | hrest
      · refine Or.inl ?_
        unfold hasPair
        rw [hab]
        rfl
      · rw [← List.cons_append] at hrest
        rcases ih hrest with h1 | h2 | h3
        · refine Or.inl ?_
          unfold hasPair
          rw [h1]
          simp
        · exact Or.inr (Or.inl h2)
        · refine Or.inr (Or.inr ⟨?_, h3.2⟩)
          rw [List.getLast?_cons_cons]
          exact h3.1

lemma hasPair_append_false {x : Char} {u v : List Char}
    (hu : hasPair x u = false) (hv : hasPair x v = false)
    (hj : ¬(u.getLast? = some x ∧ v.head? = some x)) :
    hasPair x (u ++ v) = false := by
  cases h : hasPair x (u ++ v) with
  | false => rfl
  | true =>
    exfalso
    rcases hasPair_append_split h with h1 | h2 | h3
    · rw [hu] at h1; cases h1
    · rw [hv] at h2; cases h2
    · exact hj h3

lemma hasPair_append_of_left {x : Char} : ∀ {u : List Char},
    hasPair x u = true → ∀ v, hasPair x (u ++ v) = true := by
  intro u
  induction u with
  | nil => intro h; cases h
  | cons a u' ih =>
    intro h v
    cases u' with
    | nil => simp [hasPair] at h
    | cons b u'' =>
      unfold hasPair at h
      rw [List.cons_append, List.cons_append]
      unfold hasPair
      rcases (Bool.or_eq_true _ _).mp h with hab | hrest
      · rw [hab]; rfl
      · rw [← List.cons_append]
        rw [ih hrest v]
        simp

lemma hasPair_append_of_right {x : Char} {v : List Char}
    (h : hasPair x v = true) : ∀ u, hasPair x (u ++ v) = true := by
  intro u
  induction u with
  | nil => exact h
  | cons a u' ih =>
    rw [List.cons_append]
    cases ht : u' ++ v with
    | nil =>
      rw [ht] at ih
      cases v with
      | nil => cases h
      | cons c v' => simp at ht
    | cons c t' =>
      unfold hasPair
      rw [← ht, ih]
      simp

lemma hasPair_of_within {x : Char} {u v : List Char} (hinf : u <:+: v)
    (hv : hasPair x v = false) : hasPair x u = false := by
  obtain ⟨a, b, hab⟩ := hinf
  subst hab
  cases h : hasPair x u with
  | false => rfl
  | true =>
    exfalso
    have h1 : hasPair x ((u ++ b)) = true := hasPair_append_of_left h b
    have h2 : hasPair x (a ++ (u ++ b)) = true := hasPair_append_of_right h1 a
    rw [← List.append_assoc] at h2
    rw [hv] at h2
    cases h2

/-- Every newline in the string is immediately followed by `<` (the shape
of an assembled body, whose lines are all markup blocks). -/
def nlOk : List Char → Bool
  | [] => true
  | c :: r => (if c = '\n' then decide (r.head? = some '<') else true) && nlOk r

lemma nlOk_tail {c : Char} {r : List Char} (h : nlOk (c :: r) = true) :
    nlOk r = true := by
  unfold nlOk at h
  exact (Bool.and_eq_true _ _).mp h |>.2

lemma nlOk_nl {r : List Char} (h : nlOk ('\n' :: r) = true) :
    r.head? = some '<' := by
  unfold nlOk at h
  have := ((Bool.and_eq_true _ _).mp h).1
  rw [if_pos rfl] at this
  exact of_decide_eq_true this

lemma nlOk_of_not_mem : ∀ {u : List Char}, '\n' ∉ u → nlOk u = true := by
  intro u
  induction u with
  | nil => intro _; rfl
  | cons c r ih =>
    intro h
    unfold nlOk
    rw [if_neg (fun hc : c = '\n' => h (hc ▸ List.mem_cons_self c r))]
    rw [ih (fun hr => h (List.mem_cons_of_mem c hr))]
    rfl

lemma nlOk_append {u v : List Char} (hu : '\n' ∉ u) (hv : nlOk v = true) :
    nlOk (u ++ v) = true := by
  induction u with
  | nil => exact hv
  | cons c r ih =>
    rw [List.cons_append]
    unfold nlOk
    rw [if_neg (fun hc : c = '\n' => hu (hc ▸ List.mem_cons_self c r))]
    rw [ih (fun hr => hu (List.mem_cons_of_mem c hr))]
    rfl

lemma hasPair_false_of_not_mem {x : Char} : ∀ {u : List Char},
    x ∉ u → hasPair x u = false := by
  intro u
  induction u with
  | nil => intro _; rfl
  | cons a r ih =>
    intro h
    cases r with
    | nil => rfl
    | cons b r' =>
      unfold hasPair
      have ha : (a = x) = False := by
        simp only [eq_iff_iff, iff_false]
        exact fun hax => h (hax ▸ List.mem_cons_self a _)
      rw [ih (fun hr => h (List.mem_cons_of_mem a hr))]
      simp [ha]

lemma dropWhile_head_not (p : Char → Bool) : ∀ {l : List Char} {c : Char},
    (l.dropWhile p).head? = some c → p c = false := by
  intro l
  induction l with
  | nil => intro c h; cases h
  | cons a r ih =>
    intro c h
    by_cases pa : p a = true
    · rw [List.dropWhile_cons, if_pos pa] at h
      exact ih h
    · rw [List.dropWhile_cons, if_neg pa] at h
      have : a = c := by
        simpa using h
      subst this
      simpa using pa

lemma pyStrip_getLast_not {l : List Char} {c : Char}
    (h : (pyStrip l).getLast? = some c) : isSpaceC c = false := by
  unfold pyStrip at h
  rw [List.getLast?_reverse] at h
  exact dropWhile_head_not _ h

lemma pyStrip_eq_self {l : List Char} {c d : Char} (hh : l.head? = some c)
    (hc : isSpaceC c = false) (hl : l.getLast? = some d)
    (hd : isSpaceC d = false) : pyStrip l = l := by
  have h1 : l.dropWhile isSpaceC = l := by
    cases l with
    | nil => rfl
    | cons a r =>
      have : a = c := by simpa using hh
      subst this
      rw [List.dropWhile_cons, if_neg (by rw [hc]; exact fun hx => nomatch hx)]
  have h2 : l.reverse.dropWhile isSpaceC = l.reverse := by
    cases hr : l.reverse with
    | nil => rfl
    | cons a r =>
      have ha : a = d := by
        have h3 := List.head?_reverse l
        rw [hr, hl] at h3
        simpa using h3
      subst ha
      rw [List.dropWhile_cons, if_neg (by rw [hd]; exact fun hx => nomatch hx)]
  unfold pyStrip
  rw [h1, h2, List.reverse_reverse]

lemma pyStrip_within (l : List Char) : pyStrip l <:+: l := by
  refine ⟨l.takeWhile isSpaceC,
    ((l.dropWhile isSpaceC).reverse.takeWhile isSpaceC).reverse, ?_⟩
  unfold pyStrip
  rw [List.append_assoc, ← List.reverse_append, List.takeWhile_append_dropWhile,
    List.reverse_reverse, List.takeWhile_append_dropWhile]

lemma splitLinesGo_cons (cur : List Char) (c : Char) (r : List Char) :
    splitLinesGo cur (c :: r) =
      if c = '\n' then cur.reverse :: splitLinesGo [] r
      else splitLinesGo (c :: cur) r := rfl

lemma splitLinesGo_mem_within : ∀ (s cur l : List Char),
    l ∈ splitLinesGo cur s → l <:+: (cur.reverse ++ s) := by
  intro s
  induction s with
  | nil =>
    intro cur l hl
    unfold splitLinesGo at hl
    by_cases hc : cur = []
    · rw [if_pos hc] at hl; cases hl
    · rw [if_neg hc] at hl
      rw [List.mem_singleton] at hl
      subst hl
      rw [List.append_nil]
  | cons c r ih =>
    intro cur l hl
    unfold splitLinesGo at hl
    by_cases hc : c = '\n'
    · rw [if_pos hc] at hl
      rcases List.mem_cons.mp hl with h1 | h2
      · subst h1
        exact ⟨[], c :: r, by simp⟩
      · have h3 := ih [] l h2
        rw [List.reverse_nil, List.nil_append] at h3
        exact h3.trans ⟨cur.reverse ++ [c], [], by simp⟩
    · rw [if_neg hc] at hl
      have h3 := ih (c :: cur) l hl
      rw [List.reverse_cons, List.append_assoc] at h3
      simpa using h3

lemma splitLines_mem_within {s l : List Char} (h : l ∈ splitLines s) :
    l <:+: s := by
  have := splitLinesGo_mem_within s [] l h
  simpa using this

lemma splitLinesGo_mem_noNl : ∀ (s cur : List Char), '\n' ∉ cur →
    ∀ l ∈ splitLinesGo cur s, '\n' ∉ l := by
  intro s
  induction s with
  | nil =>
    intro cur hcur l hl
    unfold splitLinesGo at hl
    by_cases hc : cur = []
    · rw [if_pos hc] at hl; cases hl
    · rw [if_neg hc] at hl
      rw [List.mem_singleton] at hl
      subst hl
      simpa using hcur
  | cons c r ih =>
    intro cur hcur l hl
    unfold splitLinesGo at hl
    by_cases hc : c = '\n'
    · rw [if_pos hc] at hl
      rcases List.mem_cons.mp hl with h1 | h2
      · subst h1; simpa using hcur
      · exact ih [] (by simp) l h2
    · rw [if_neg hc] at hl
      refine ih (c :: cur) ?_ l hl
      intro hmem
      rcases List.mem_cons.mp hmem with h1 | h2
      · exact hc h1.symm
      · exact hcur h2

lemma splitLines_mem_noNl {s : List Char} : ∀ l ∈ splitLines s, '\n' ∉ l :=
  splitLinesGo_mem_noNl s [] (by simp)

lemma splitLinesGo_append_noNl : ∀ (x : List Char), '\n' ∉ x →
    ∀ (cur t : List Char),
      splitLinesGo cur (x ++ t) = splitLinesGo (x.reverse ++ cur) t := by
  intro x
  induction x with
  | nil => intro _ cur t; simp
  | cons c x' ih =>
    intro hn cur t
    rw [List.cons_append, splitLinesGo_cons,
      if_neg (fun hc : c = '\n' => hn (hc ▸ List.mem_cons_self c x'))]
    rw [ih (fun hr => hn (List.mem_cons_of_mem c hr)) (c :: cur) t]
    rw [List.reverse_cons, List.append_assoc]
    rfl

lemma splitLines_joinNL : ∀ (blocks : List (List Char)),
    (∀ b ∈ blocks, b ≠ [] ∧ '\n' ∉ b) → splitLines (joinNL blocks) = blocks := by
  intro blocks
  induction blocks with
  | nil => intro _; rfl
  | cons b rest ih =>
    intro hb
    have hbne := (hb b (List.mem_cons_self _ _)).1
    have hbnn := (hb b (List.mem_cons_self _ _)).2
    cases rest with
    | nil =>
      show splitLinesGo [] (joinNL [b]) = [b]
      have heq : joinNL [b] = b ++ [] := by simp [joinNL]
      rw [heq, splitLinesGo_append_noNl b hbnn [] []]
      unfold splitLinesGo
      rw [if_neg (by simpa using hbne)]
      simp
    | cons b2 rest' =>
      show splitLinesGo [] (joinNL (b :: b2 :: rest')) = b :: b2 :: rest'
      rw [joinNL_cons_cons, splitLinesGo_append_noNl b hbnn []]
      unfold splitLinesGo
      rw [if_pos rfl]
      have hih := ih (fun l hl => hb l (List.mem_cons_of_mem b hl))
      unfold splitLines at hih
      rw [hih]
      simp

lemma joinNL_head {b : List Char} (rest : List (List Char)) (hb : b ≠ []) :
    (joinNL (b :: rest)).head? = b.head? := by
  cases rest with
  | nil => rfl
  | cons b2 rest' =>
    rw [joinNL_cons_cons]
    cases b with
    | nil => exact absurd rfl hb
    | cons c b' => rfl

lemma joinNL_ne_nil {b : List Char} (rest : List (List Char)) (hb : b ≠ []) :
    joinNL (b :: rest) ≠ [] := by
  cases rest with
  | nil => exact hb
  | cons b2 rest' =>
    rw [joinNL_cons_cons]
    cases b with
    | nil => exact absurd rfl hb
    | cons c b' => simp

/-- The shape of every block emitted for a plain (heading-free, table-free)
line: nonempty markup starting with `<`, newline-free, without doubled
stars, and stable under `strip()`. -/
def GoodBlock (b : List Char) : Prop :=
  b ≠ [] ∧ b.head? = some '<' ∧ '\n' ∉ b ∧ hasPair '*' b = false ∧
    pyStrip b = b

lemma goodBlock_getLast {b : List Char} (hb : GoodBlock b) :
    ∃ d, b.getLast? = some d ∧ isSpaceC d = false := by
  obtain ⟨hne, _, _, _, hstrip⟩ := hb
  have hsome : b.getLast?.isSome := by
    rw [List.getLast?_isSome]
    exact hne
  obtain ⟨d, hd⟩ := Option.isSome_iff_exists.mp hsome
  refine ⟨d, hd, ?_⟩
  apply pyStrip_getLast_not (l := b)
  rw [hstrip]
  exact hd

lemma joinNL_nlOk : ∀ (blocks : List (List Char)),
    (∀ b ∈ blocks, GoodBlock b) → nlOk (joinNL blocks) = true := by
  intro blocks
  induction blocks with
  | nil => intro _; rfl
  | cons b rest ih =>
    intro hb
    have hgb := hb b (List.mem_cons_self _ _)
    cases rest with
    | nil => exact nlOk_of_not_mem hgb.2.2.1
    | cons b2 rest' =>
      rw [joinNL_cons_cons]
      apply nlOk_append hgb.2.2.1
      show nlOk ('\n' :: joinNL (b2 :: rest')) = true
      unfold nlOk
      rw [if_pos rfl]
      have hhead : (joinNL (b2 :: rest')).head? = some '<' := by
        rw [joinNL_head _ (hb b2 (by simp)).1]
        exact (hb b2 (by simp)).2.1
      rw [hhead]
      rw [ih (fun l hl => hb l (List.mem_cons_of_mem b hl))]
      simp

lemma joinNL_noStarPair : ∀ (blocks : List (List Char)),
    (∀ b ∈ blocks, GoodBlock b) → hasPair '*' (joinNL blocks) = false := by
  intro blocks
  induction blocks with
  | nil => intro _; rfl
  | cons b rest ih =>
    intro hb
    have hgb := hb b (List.mem_cons_self _ _)
    cases rest with
    | nil => exact hgb.2.2.2.1
    | cons b2 rest' =>
      rw [joinNL_cons_cons]
      apply hasPair_append_false hgb.2.2.2.1
      · show hasPair '*' (['\n'] ++ joinNL (b2 :: rest')) = false
        refine hasPair_append_false ?_
          (ih (fun l hl => hb l (List.mem_cons_of_mem b hl))) ?_
        · rfl
        · rintro ⟨h1, _⟩
          simp at h1
      · rintro ⟨_, h2⟩
        simp at h2

lemma joinNL_noNlPair : ∀ (blocks : List (List Char)),
    (∀ b ∈ blocks, GoodBlock b) → hasPair '\n' (joinNL blocks) = false := by
  intro blocks
  induction blocks with
  | nil => intro _; rfl
  | cons b rest ih =>
    intro hb
    have hgb := hb b (List.mem_cons_self _ _)
    cases rest with
    | nil => exact hasPair_false_of_not_mem hgb.2.2.1
    | cons b2 rest' =>
      rw [joinNL_cons_cons]
      apply hasPair_append_false (hasPair_false_of_not_mem hgb.2.2.1)
      · show hasPair '\n' (['\n'] ++ joinNL (b2 :: rest')) = false
        refine hasPair_append_false ?_
          (ih (fun l hl => hb l (List.mem_cons_of_mem b hl))) ?_
        · rfl
        · rintro ⟨_, h2⟩
          have hhead : (joinNL (b2 :: rest')).head? = some '<' := by
            rw [joinNL_head _ (hb b2 (by simp)).1]
            exact (hb b2 (by simp)).2.1
          rw [hhead] at h2
          simp at h2
      · rintro ⟨h1, _⟩
        have : '\n' ∈ b := List.mem_of_mem_getLast? (by rw [h1]; rfl)
        exact hgb.2.2.1 this

lemma joinNL_getLast_good : ∀ (blocks : List (List Char)), blocks ≠ [] →
    (∀ b ∈ blocks, GoodBlock b) →
    ∃ d, (joinNL blocks).getLast? = some d ∧ isSpaceC d = false := by
  intro blocks
  induction blocks with
  | nil => intro h _; exact absurd rfl h
  | cons b rest ih =>
    intro _ hb
    cases rest with
    | nil => exact goodBlock_getLast (hb b (List.mem_cons_self _ _))
    | cons b2 rest' =>
      rw [joinNL_cons_cons]
      have hJ : joinNL (b2 :: rest') ≠ [] :=
        joinNL_ne_nil rest' (hb b2 (by simp)).1
      obtain ⟨d, hd, hdw⟩ := ih (by simp)
        (fun l hl => hb l (List.mem_cons_of_mem b hl))
      refine ⟨d, ?_, hdw⟩
      rw [List.getLast?_append]
      cases hJc : joinNL (b2 :: rest') with
      | nil => exact absurd hJc hJ
      | cons j js =>
        rw [List.getLast?_cons_cons, ← hJc, hd]
        rfl

/-! ### Identity of the cleanup pass on an assembled body -/

lemma isNoteStart_false_of_head {c : Char} {r : List Char} (hc : c ≠ '\n') :
    isNoteStart (c :: r) = false := by
  simp only [isNoteStart]
  rw [if_neg hc]

lemma dropLitCI_none_head {lit : List Char} {c0 : Char} {s : List Char}
    {d : Char} (hlit : lit.head? = some c0) (hs : s.head? = some d)
    (hne : c0 ≠ d.toLower) : dropLitCI lit s = none := by
  cases lit with
  | nil => cases hlit
  | cons l0 lit' =>
    cases s with
    | nil => cases hs
    | cons d0 s' =>
      have h1 : l0 = c0 := by simpa using hlit
      have h2 : d0 = d := by simpa using hs
      subst h1 h2
      unfold dropLitCI
      rw [if_neg hne]

lemma isNoteStart_false_nl {r : List Char} (hr : r.head? = some '<') :
    isNoteStart ('\n' :: r) = false := by
  obtain ⟨r', rfl⟩ : ∃ r', r = '<' :: r' := by
    cases r with
    | nil => cases hr
    | cons a r' =>
      have : a = '<' := by simpa using hr
      exact ⟨r', by rw [this]⟩
  simp only [isNoteStart, if_true]
  have hdw : ('<' :: r').dropWhile isSpaceC = '<' :: r' := by
    rw [List.dropWhile_cons, if_neg (by decide)]
  rw [hdw]
  rw [dropLitCI_none_head (show ("izoh".toList).head? = some 'i' from rfl)
    (show ('<' :: r').head? = some '<' from rfl) (by decide)]
  rw [dropLitCI_none_head (show ("eslatma".toList).head? = some 'e' from rfl)
    (show ('<' :: r').head? = some '<' from rfl) (by decide)]

lemma cutNote_id : ∀ {t : List Char}, nlOk t = true → cutNote t = t := by
  intro t
  induction t with
  | nil => intro _; rfl
  | cons c r ih =>
    intro h
    unfold cutNote
    by_cases hc : c = '\n'
    · subst hc
      rw [if_neg (by simp [isNoteStart_false_nl (nlOk_nl h)])]
      rw [ih (nlOk_tail h)]
    · rw [if_neg (by simp [isNoteStart_false_of_head hc])]
      rw [ih (nlOk_tail h)]

lemma matchLineLit_none_head {lit : List Char} {c0 : Char}
    (hlit : lit.head? = some c0) (hc0 : c0 ≠ '<') {t : List Char}
    (ht : t.head? = some '<') : matchLineLit lit t = none := by
  obtain ⟨t', rfl⟩ : ∃ t', t = '<' :: t' := by
    cases t with
    | nil => cases ht
    | cons a t' =>
      have : a = '<' := by simpa using ht
      exact ⟨t', by rw [this]⟩
  unfold matchLineLit
  have h1 : (takeRun isSpaceC ('<' :: t')).2 = '<' :: t' := by
    unfold takeRun
    rw [if_neg (by decide)]
  rw [h1]
  have h2 : dropLit lit ('<' :: t') = none := by
    cases lit with
    | nil => cases hlit
    | cons l0 lit' =>
      have : l0 = c0 := by simpa using hlit
      subst this
      unfold dropLit
      rw [if_neg (fun he => hc0 he)]
  rw [h2]

lemma lineSubGo_id {lit : List Char} {c0 : Char} (hlit : lit.head? = some c0)
    (hc0 : c0 ≠ '<') : ∀ (f : Nat) (st : Bool) (t : List Char),
    nlOk t = true → (st = true → t.head? = some '<') →
    lineSubGo lit f st t = t := by
  intro f
  induction f with
  | zero => intro st t _ _; rfl
  | succ f ih =>
    intro st t hnl hst
    cases t with
    | nil => rfl
    | cons c r =>
      simp only [lineSubGo]
      cases st with
      | true =>
        rw [if_pos rfl]
        rw [matchLineLit_none_head hlit hc0 (hst rfl)]
        rw [ih (decide (c = '\n')) r (nlOk_tail hnl) ?_]
        intro hd
        have hcnl : c = '\n' := of_decide_eq_true hd
        subst hcnl
        exact nlOk_nl hnl
      | false =>
        rw [if_neg (fun hx => nomatch hx)]
        rw [ih (decide (c = '\n')) r (nlOk_tail hnl) ?_]
        intro hd
        have hcnl : c = '\n' := of_decide_eq_true hd
        subst hcnl
        exact nlOk_nl hnl

lemma lineSub_id {lit : List Char} {c0 : Char} (hlit : lit.head? = some c0)
    (hc0 : c0 ≠ '<') {t : List Char} (hnl : nlOk t = true)
    (ht : t.head? = some '<') : lineSub lit t = t :=
  lineSubGo_id hlit hc0 (t.length + 1) true t hnl (fun _ => ht)

lemma hashGo_id : ∀ (f : Nat) (st : Bool) (t : List Char), nlOk t = true →
    (st = true → t.head? = some '<') → hashGo f st t = t := by
  intro f
  induction f with
  | zero => intro st t _ _; rfl
  | succ f ih =>
    intro st t hnl hst
    cases t with
    | nil => rfl
    | cons c r =>
      simp only [hashGo]
      have hcond : (st && decide (c = '#')) = false := by
        cases st with
        | false => rfl
        | true =>
          have hc : c = '<' := by simpa using hst rfl
          subst hc
          decide
      rw [if_neg (by rw [hcond]; exact fun hx => nomatch hx)]
      rw [ih (decide (c = '\n')) r (nlOk_tail hnl) ?_]
      intro hd
      have hcnl : c = '\n' := of_decide_eq_true hd
      subst hcnl
      exact nlOk_nl hnl

lemma collapseNlGo_id : ∀ {t : List Char}, hasPair '\n' t = false →
    collapseNlGo 0 t = t := by
  intro t
  induction t with
  | nil => intro _; rfl
  | cons c r ih =>
    intro h
    unfold collapseNlGo
    by_cases hc : c = '\n'
    · subst hc
      rw [if_pos rfl]
      cases r with
      | nil => rfl
      | cons d r' =>
        have hd : d ≠ '\n' := by
          intro hdeq
          subst hdeq
          unfold hasPair at h
          simp at h
        have hih := ih (hasPair_cons_false h)
        unfold collapseNlGo at hih ⊢
        rw [if_neg hd] at hih ⊢
        simp only [Nat.zero_min, List.replicate, List.nil_append] at hih
        have hr' : collapseNlGo 0 r' = r' := by
          have := hih
          simp at this
          exact this
        rw [hr']
        rfl
    · rw [if_neg hc]
      have hih := ih (hasPair_cons_false h)
      rw [hih]
      rfl

lemma boldSubGo_cons_cons (f : Nat) (c c2 c0 : Char) (tl2 : List Char) :
    boldSubGo (f + 1) (c :: c2 :: c0 :: tl2) =
      if c = '*' then
        if c2 = '*' then
          match findCloseStars tl2 with
          | some q =>
            "<strong>".toList ++ (c0 :: q.1) ++ "</strong>".toList ++
              boldSubGo f q.2
          | none => c :: boldSubGo f (c2 :: c0 :: tl2)
        else c :: boldSubGo f (c2 :: c0 :: tl2)
      else c :: boldSubGo f (c2 :: c0 :: tl2) := rfl

lemma boldSubGo_id : ∀ (f : Nat) {t : List Char}, hasPair '*' t = false →
    boldSubGo f t = t := by
  intro f
  induction f with
  | zero => intro t _; rfl
  | succ f ih =>
    intro t h
    cases t with
    | nil => rfl
    | cons c tl =>
      cases tl with
      | nil =>
        show (if c = '*' then c :: boldSubGo f [] else c :: boldSubGo f []) = [c]
        have hnil : hasPair '*' ([] : List Char) = false := rfl
        rw [ih hnil, ite_self]
      | cons c2 tl' =>
        cases tl' with
        | nil =>
          show (if c = '*' then c :: boldSubGo f [c2] else c :: boldSubGo f [c2]) =
            [c, c2]
          rw [ih (hasPair_cons_false h), ite_self]
        | cons c0 tl2 =>
          rw [boldSubGo_cons_cons]
          by_cases hc : c = '*'
          · have hc2 : c2 ≠ '*' := by
              intro he
              subst he hc
              unfold hasPair at h
              simp at h
            rw [if_pos hc, if_neg hc2, ih (hasPair_cons_false h)]
          · rw [if_neg hc, ih (hasPair_cons_false h)]

lemma boldSub_id {t : List Char} (h : hasPair '*' t = false) :
    boldSub t = t :=
  boldSubGo_id (t.length + 1) h

/-! ### C9: idempotence of the body assembly on plain paragraphs -/

lemma getLast?_dropWhile {p : Char → Bool} {x : List Char} {c : Char}
    (h : (x.dropWhile p).getLast? = some c) : x.getLast? = some c := by
  have hsuf : x.dropWhile p <:+ x := List.dropWhile_suffix p
  obtain ⟨t, ht⟩ := hsuf
  rw [← ht, List.getLast?_append, h]
  rfl

lemma pyStrip_head_not {l : List Char} {c : Char}
    (h : (pyStrip l).head? = some c) : isSpaceC c = false := by
  unfold pyStrip at h
  rw [List.head?_reverse] at h
  have h2 := getLast?_dropWhile h
  rw [List.getLast?_reverse] at h2
  exact dropWhile_head_not _ h2

lemma pyStrip_idem (l : List Char) : pyStrip (pyStrip l) = pyStrip l := by
  cases hh : (pyStrip l).head? with
  | none =>
    have hnil : pyStrip l = [] := by
      cases hP : pyStrip l with
      | nil => rfl
      | cons a r =>
        rw [hP] at hh
        simp at hh
    rw [hnil]
    rfl
  | some c =>
    have hne : pyStrip l ≠ [] := by
      intro he
      rw [he] at hh
      cases hh
    have hsome : (pyStrip l).getLast?.isSome := by
      rw [List.getLast?_isSome]
      exact hne
    obtain ⟨d, hd⟩ := Option.isSome_iff_exists.mp hsome
    exact pyStrip_eq_self hh (pyStrip_head_not hh) hd (pyStrip_getLast_not hd)

lemma isTableRow_false_of_good {b : List Char} (hstrip : pyStrip b = b)
    (hh : b.head? = some '<') : isTableRow b = false := by
  simp only [isTableRow]
  rw [hstrip, hh,
    (show decide ((some '<' : Option Char) = some '|') = false by decide)]
  simp

lemma isHeadingLine_false_of_head {num c : Char} {w st : List Char}
    (hh : st.head? = some c) (hc : c ≠ num) : isHeadingLine num w st = false := by
  cases h : isHeadingLine num w st with
  | false => rfl
  | true =>
    exfalso
    have := isHeadingLine_head h
    rw [hh] at this
    exact hc (Option.some.inj this)

lemma isSubHeading_false_of_head {st : List Char}
    (hh : st.head? = some '<') : isSubHeading st = false := by
  obtain ⟨r, rfl⟩ : ∃ r, st = '<' :: r := by
    cases st with
    | nil => cases hh
    | cons a r =>
      have : a = '<' := by simpa using hh
      exact ⟨r, by rw [this]⟩
  simp only [isSubHeading]
  have h1 : takeRun isDigitC ('<' :: r) = ([], '<' :: r) := by
    unfold takeRun
    rw [if_neg (by decide)]
  rw [h1]
  simp

/-- The single block emitted by the classification loop for a plain
(table-free, heading-free) line: nothing for a blank line, the stripped
line itself when it is already markup, otherwise a `<p>` paragraph. -/
def lineBlock (l : List Char) : Option (List Char) :=
  if pyStrip l = [] then none
  else if (pyStrip l).head? = some '<' then some (pyStrip l)
  else some (paraBlock (pyStrip l))

lemma processLines_plain : ∀ (L acc : List (List Char)),
    (∀ l ∈ L, isTableRow l = false ∧ isH1 (pyStrip l) = false ∧
      isH2 (pyStrip l) = false ∧ isH3 (pyStrip l) = false ∧
      isH4 (pyStrip l) = false ∧ isSubHeading (pyStrip l) = false) →
    processLines L [] acc = acc ++ L.filterMap lineBlock := by
  intro L
  induction L with
  | nil =>
    intro acc _
    simp [processLines, tableHtml]
  | cons l rest ih =>
    intro acc h
    obtain ⟨ht, h1, h2, h3, h4, hsub⟩ := h l (List.mem_cons_self _ _)
    have hrest := fun x hx => h x (List.mem_cons_of_mem _ hx)
    unfold processLines
    rw [if_neg (by rw [ht]; decide)]
    by_cases hst : pyStrip l = []
    · rw [if_pos hst, ih _ hrest]
      have hlb : lineBlock l = none := by
        unfold lineBlock
        rw [if_pos hst]
      rw [List.filterMap_cons, hlb]
      simp [tableHtml]
    · rw [if_neg hst]
      rw [if_neg (by rw [h1]; decide), if_neg (by rw [h2]; decide),
        if_neg (by rw [h3]; decide), if_neg (by rw [h4]; decide),
        if_neg (by rw [hsub]; decide)]
      by_cases hlt : (pyStrip l).head? = some '<'
      · rw [if_pos hlt, ih _ hrest]
        have hlb : lineBlock l = some (pyStrip l) := by
          unfold lineBlock
          rw [if_neg hst, if_pos hlt]
        rw [List.filterMap_cons, hlb]
        simp [tableHtml]
      · rw [if_neg hlt, ih _ hrest]
        have hlb : lineBlock l = some (paraBlock (pyStrip l)) := by
          unfold lineBlock
          rw [if_neg hst, if_neg hlt]
        rw [List.filterMap_cons, hlb]
        simp [tableHtml]

lemma lineBlock_good {l b : List Char} (hnn : '\n' ∉ l)
    (hsp : hasPair '*' l = false) (hlb : lineBlock l = some b) :
    GoodBlock b := by
  unfold lineBlock at hlb
  by_cases hst : pyStrip l = []
  · rw [if_pos hst] at hlb
    cases hlb
  · rw [if_neg hst] at hlb
    have hstn : '\n' ∉ pyStrip l := fun hm => hnn ((pyStrip_within l).subset hm)
    have hsts : hasPair '*' (pyStrip l) = false :=
      hasPair_of_within (pyStrip_within l) hsp
    by_cases hlt : (pyStrip l).head? = some '<'
    · rw [if_pos hlt] at hlb
      have hb : b = pyStrip l := (Option.some.inj hlb).symm
      subst hb
      exact ⟨hst, hlt, hstn, hsts, pyStrip_idem l⟩
    · rw [if_neg hlt] at hlb
      have hb : b = paraBlock (pyStrip l) := (Option.some.inj hlb).symm
      subst hb
      refine ⟨?_, rfl, ?_, ?_, ?_⟩
      · intro he
        have h0 : (paraBlock (pyStrip l)).head? = some '<' := rfl
        rw [he] at h0
        simp at h0
      · intro hm
        unfold paraBlock at hm
        rcases List.mem_append.mp hm with hm1 | hm2
        · rcases List.mem_append.mp hm1 with hm3 | hm4
          · exact absurd hm3 (by decide)
          · exact hstn hm4
        · exact absurd hm2 (by decide)
      · unfold paraBlock
        refine hasPair_append_false ?_ (by decide) ?_
        · refine hasPair_append_false (by decide) hsts ?_
          rintro ⟨hx, -⟩
          exact absurd hx (by decide)
        · rintro ⟨-, hx⟩
          exact absurd hx (by decide)
      · have hlast : (paraBlock (pyStrip l)).getLast? = some '>' := by
          unfold paraBlock
          rw [List.getLast?_append]
          rfl
        exact pyStrip_eq_self rfl (by decide) hlast (by decide)

lemma processLines_good : ∀ (L acc : List (List Char)),
    (∀ b ∈ L, GoodBlock b) → processLines L [] acc = acc ++ L := by
  intro L
  induction L with
  | nil =>
    intro acc _
    simp [processLines, tableHtml]
  | cons b rest ih =>
    intro acc h
    obtain ⟨hne, hhead, hnn, hnp, hstrip⟩ := h b (List.mem_cons_self _ _)
    have hrest : ∀ x ∈ rest, GoodBlock x :=
      fun x hx => h x (List.mem_cons_of_mem _ hx)
    have htab : isTableRow b = false := isTableRow_false_of_good hstrip hhead
    have h1 : isH1 b = false := isHeadingLine_false_of_head hhead (by decide)
    have h2 : isH2 b = false := isHeadingLine_false_of_head hhead (by decide)
    have h3 : isH3 b = false := isHeadingLine_false_of_head hhead (by decide)
    have h4 : isH4 b = false := isH4_false_of_head hhead (by decide)
    have hs : isSubHeading b = false := isSubHeading_false_of_head hhead
    unfold processLines
    rw [if_neg (by rw [htab]; decide), hstrip, if_neg hne,
      if_neg (by rw [h1]; decide), if_neg (by rw [h2]; decide),
      if_neg (by rw [h3]; decide), if_neg (by rw [h4]; decide),
      if_neg (by rw [hs]; decide), if_pos hhead, ih _ hrest]
    simp [tableHtml]

lemma assembleBody_nil (latexSub : List Char → List Char) :
    assembleBody latexSub [] = [] := by
  unfold assembleBody
  have h2 : clean_ai_content [] = [] := rfl
  rw [h2]
  unfold ai_content_to_html_paragraphs
  rw [if_pos rfl]

lemma clean_ai_content_id {t : List Char} (hnl : nlOk t = true)
    (hh : t.head? = some '<') (hnp : hasPair '\n' t = false)
    (hstrip : pyStrip t = t) : clean_ai_content t = t := by
  unfold clean_ai_content
  rw [cutNote_id hnl]
  rw [lineSub_id (show foydLit.head? = some '[' from rfl) (by decide) hnl hh]
  rw [lineSub_id (show dashLit.head? = some '-' from rfl) (by decide) hnl hh]
  unfold hashSub
  rw [hashGo_id (t.length + 1) true t hnl (fun _ => hh)]
  unfold collapseNl
  rw [collapseNlGo_id hnp]
  exact hstrip

/-- C9.  Counterexample to idempotence as claimed: plain paragraph text
containing a doubled-star run is rewritten differently by a second pass
(the input `****a** **b` assembles to `<strong>**a</strong> **b`, which a
second assembly turns into `<strong><strong>a</strong> </strong>b`). -/
theorem assemble_not_idempotent :
    assembleBody latexId (assembleBody latexId "****a** **b".toList) ≠
      assembleBody latexId "****a** **b".toList := by
  decide

/-- C9 (amended).  When the cleaned content contains no doubled `**` and
every line is a plain paragraph (no table rows, no main headings, no
subheadings), assembling the assembled body reproduces it unchanged, for
any formula-free latex oracle. -/
theorem assemble_idempotent_plain (latexSub : List Char → List Char)
    (s : List Char) (hlat : ∀ u, latexSub u = u)
    (hstar : hasPair '*' (clean_ai_content s) = false)
    (hlines : ∀ l ∈ splitLines (clean_ai_content s),
      isTableRow l = false ∧ isH1 (pyStrip l) = false ∧
      isH2 (pyStrip l) = false ∧ isH3 (pyStrip l) = false ∧
      isH4 (pyStrip l) = false ∧ isSubHeading (pyStrip l) = false) :
    assembleBody latexSub (assembleBody latexSub s) =
      assembleBody latexSub s := by
  by_cases hc0 : clean_ai_content s = []
  · have hout : assembleBody latexSub s = [] := by
      unfold assembleBody ai_content_to_html_paragraphs
      rw [hc0]
      rw [if_pos rfl]
    rw [hout]
    exact assembleBody_nil latexSub
  · have hble : ∀ b ∈ (splitLines (clean_ai_content s)).filterMap lineBlock,
        GoodBlock b := by
      intro b hb
      obtain ⟨l, hl, hlb⟩ := List.mem_filterMap.mp hb
      exact lineBlock_good (splitLines_mem_noNl l hl)
        (hasPair_of_within (splitLines_mem_within hl) hstar) hlb
    have hout1 : assembleBody latexSub s =
        joinNL ((splitLines (clean_ai_content s)).filterMap lineBlock) := by
      unfold assembleBody ai_content_to_html_paragraphs
      rw [if_neg hc0, hlat, boldSub_id hstar,
        processLines_plain _ [] hlines, List.nil_append]
    rw [hout1]
    cases hB : (splitLines (clean_ai_content s)).filterMap lineBlock with
    | nil =>
      show assembleBody latexSub [] = ([] : List Char)
      exact assembleBody_nil latexSub
    | cons b0 B' =>
      rw [hB] at hble
      have hb0 := hble b0 (List.mem_cons_self _ _)
      have hJnl : nlOk (joinNL (b0 :: B')) = true := joinNL_nlOk _ hble
      have hJhead : (joinNL (b0 :: B')).head? = some '<' := by
        rw [joinNL_head _ hb0.1]
        exact hb0.2.1
      have hJne : joinNL (b0 :: B') ≠ [] := joinNL_ne_nil _ hb0.1
      have hJnp : hasPair '\n' (joinNL (b0 :: B')) = false :=
        joinNL_noNlPair _ hble
      have hJsp : hasPair '*' (joinNL (b0 :: B')) = false :=
        joinNL_noStarPair _ hble
      have hJstrip : pyStrip (joinNL (b0 :: B')) = joinNL (b0 :: B') := by
        obtain ⟨d, hd, hdw⟩ := joinNL_getLast_good _ (by simp) hble
        exact pyStrip_eq_self hJhead (by decide) hd hdw
      have hclean : clean_ai_content (joinNL (b0 :: B')) = joinNL (b0 :: B') :=
        clean_ai_content_id hJnl hJhead hJnp hJstrip
      unfold assembleBody
      rw [hclean]
      unfold ai_content_to_html_paragraphs
      rw [if_neg hJne, hlat, boldSub_id hJsp,
        splitLines_joinNL _ (fun b hb => ⟨(hble b hb).1, (hble b hb).2.2.1⟩),
        processLines_good _ [] hble, List.nil_append]

/-- Witness for C9 (amended): a concrete plain paragraph is reproduced
unchanged by a second assembly. -/
theorem assemble_idempotent_plain_witness :
    assembleBody latexId (assembleBody latexId "salom dunyo".toList) =
      assembleBody latexId "salom dunyo".toList :=
  assemble_idempotent_plain latexId "salom dunyo".toList (fun _ => rfl)
    (by decide) (by decide)

end Tgbotq
